import Mathlib

/-!
# Bounding Volume Hierarchy: build, traversal and invariant checking

A shallow embedding of `src/raytrace/bvh.h` and `src/raytrace/bvh.cpp`.

Conventions of the embedding.

* `float` values are exact rationals.  The one place where the code can produce a
  non-finite value (the division by the parent surface area in `Build_SurfaceArea`,
  and the initial `FLOAT_INFINITY`) is modelled by `FScore`.
* `uint` indices are natural numbers and `int` values are integers.  The embedding
  covers arrays whose indices fit in an `int` (fewer than 2^31 elements), where
  `uint`/`int` arithmetic on in-range indices coincides with arithmetic on naturals;
  the unsigned wrap of `end - start` for `end < start` and of a negative `int`
  converted to `uint` is kept (`usub`, `toUInt`).
* The mutable `std::vector<Primitive*>&` is passed and returned explicitly.
* A failed `assert` is `none`.  `BuildHelper` takes a fuel argument bounding the
  recursion depth; running out of fuel is `none` as well.
* `std::sort` is a parameter `S : StdSort`: any function that, for a comparator that
  is a strict weak ordering, returns a sorted permutation of its input.
* `BoundingBox`, `Vec3f`, `Primitive`, `Ray` and `Hit` are declared in headers that
  are not part of the sources; they are modelled from their documented interface.
-/

namespace BVHSpec

/-! ## External collaborators -/

/-- Modelled from the spec: `Vec3f` (declared in a header outside the sources), a
triple of exact coordinates. -/
structure Vec3f where
  x : ℚ
  y : ℚ
  z : ℚ
deriving DecidableEq

/-- Modelled from the spec: `Vec3f::operator[]`, component `0`, `1` or `2`.  Any other
index is outside the contract of the source; the model returns `z` for it. -/
def Vec3f.get (v : Vec3f) (axis : Int) : ℚ :=
  if axis = 0 then v.x else if axis = 1 then v.y else v.z

/-- Modelled from the spec: `BoundingBox` (declared in `boundingbox.h`, outside the
sources), "axis-aligned box with union/extend, containment test, surface area".  A
default-constructed box is the empty box, the neutral element of `Extend`. -/
inductive BoundingBox where
  | empty
  | box (minimum maximum : Vec3f)
deriving DecidableEq

/-- Modelled from the spec: `BoundingBox::getMin` (the origin for the empty box). -/
def BoundingBox.getMin : BoundingBox → Vec3f
  | .empty => ⟨0, 0, 0⟩
  | .box mn _ => mn

/-- Modelled from the spec: `BoundingBox::getMax` (the origin for the empty box). -/
def BoundingBox.getMax : BoundingBox → Vec3f
  | .empty => ⟨0, 0, 0⟩
  | .box _ mx => mx

/-- Modelled from the spec: `BoundingBox::getCenter`, the midpoint of the two corners. -/
def BoundingBox.getCenter (b : BoundingBox) : Vec3f :=
  ⟨(b.getMin.x + b.getMax.x) / 2, (b.getMin.y + b.getMax.y) / 2, (b.getMin.z + b.getMax.z) / 2⟩

/-- Modelled from the spec: `BoundingBox::Extend(const BoundingBox&)`, the smallest box
enclosing both boxes. -/
def BoundingBox.Extend : BoundingBox → BoundingBox → BoundingBox
  | .empty, b => b
  | a, .empty => a
  | .box mn mx, .box mn2 mx2 =>
    .box ⟨min mn.x mn2.x, min mn.y mn2.y, min mn.z mn2.z⟩
         ⟨max mx.x mx2.x, max mx.y mx2.y, max mx.z mx2.z⟩

/-- Modelled from the spec: `BoundingBox::isSubset`, box inclusion: `a.isSubset b` holds
when `a` lies inside `b`. -/
def BoundingBox.isSubset : BoundingBox → BoundingBox → Bool
  | .empty, _ => true
  | .box _ _, .empty => false
  | .box mn mx, .box mn2 mx2 =>
    decide (mn2.x ≤ mn.x) && decide (mn2.y ≤ mn.y) && decide (mn2.z ≤ mn.z) &&
    decide (mx.x ≤ mx2.x) && decide (mx.y ≤ mx2.y) && decide (mx.z ≤ mx2.z)

/-- Modelled from the spec: `BoundingBox::SurfaceArea`, the area of the six faces. -/
def BoundingBox.SurfaceArea : BoundingBox → ℚ
  | .empty => 0
  | .box mn mx =>
    2 * ((mx.x - mn.x) * (mx.y - mn.y) + (mx.y - mn.y) * (mx.z - mn.z)
          + (mx.z - mn.z) * (mx.x - mn.x))

/-- Modelled from the spec: `Primitive` (declared in `primitive.h`, outside the sources).
A `Primitive*` is an address together with what `getBoundingBox()` returns for it. -/
structure Primitive where
  addr : Nat
  bbox : BoundingBox
deriving DecidableEq

/-- Modelled from the spec: `Primitive::getBoundingBox`. -/
def Primitive.getBoundingBox (p : Primitive) : BoundingBox := p.bbox

/-! ## Machine arithmetic -/

/-- Unsigned subtraction `a - b` on `uint`: wraps modulo 2^32 when `b > a`. -/
def usub (a b : Nat) : Nat :=
  if b ≤ a then a - b else 2 ^ 32 - (b - a)

/-- Conversion of an `int` to `uint`: a negative value wraps modulo 2^32. -/
def toUInt (i : Int) : Nat :=
  if 0 ≤ i then i.toNat else (i + 2 ^ 32).toNat

/-- The result of a `float` division, and `FLOAT_INFINITY`. -/
inductive FScore where
  | finite (q : ℚ)
  | posInf
  | negInf
  | nan
deriving DecidableEq

/-- Division `a / b` on `float`: a zero divisor gives an infinity or a NaN. -/
def fdiv (a b : ℚ) : FScore :=
  if b = 0 then (if a = 0 then .nan else if 0 < a then .posInf else .negInf)
  else .finite (a / b)

/-- Comparison `a < b` on `float`: false whenever a NaN is involved. -/
def FScore.lt : FScore → FScore → Bool
  | .nan, _ => false
  | _, .nan => false
  | .posInf, _ => false
  | _, .negInf => false
  | .negInf, _ => true
  | .finite _, .posInf => true
  | .finite a, .finite b => decide (a < b)

/-! ## `std::sort` -/

/-- A comparator that `std::sort` accepts: a strict weak ordering, given by asymmetry
and negative transitivity. -/
structure StrictWeak (lt : Primitive → Primitive → Bool) : Prop where
  asymm : ∀ a b, lt a b = true → lt b a = false
  negTrans : ∀ a b c, lt a b = false → lt b c = false → lt a c = false

/-- The contract of `std::sort`: for a strict weak ordering the result is a permutation
of the input in which no element compares less than an earlier one.  The order of
equivalent elements is left to the implementation. -/
structure StdSort where
  run : (Primitive → Primitive → Bool) → List Primitive → List Primitive
  perm : ∀ lt l, StrictWeak lt → (run lt l).Perm l
  sorted : ∀ lt l, StrictWeak lt → (run lt l).Pairwise (fun a b => lt b a = false)

/-- The elements `primitives[start], ..., primitives[end - 1]`. -/
def slice (primitives : List Primitive) (start end_ : Nat) : List Primitive :=
  (primitives.drop start).take (end_ - start)

/-! ## Heuristic names (`bvh.h`) -/

/-- The enumeration `BVH_Heuristic`. -/
inductive BVH_Heuristic where
  | BVH_NaiveFlat
  | BVH_LongestAxis_Median
  | BVH_AlternateAxis_Median
  | BVH_BestAxis_SurfaceArea
deriving DecidableEq

/-- The function type `BVHBuilder`: the array, the range, its box and the depth go in,
the split index (or `-1`) and the reordered array come out. -/
abbrev BVHBuilder :=
  List Primitive → Nat → Nat → BoundingBox → Int → Option (Int × List Primitive)

/-! ## Build helpers -/

/-- The comparator of `sort_by_axis`: compares box centres on `axis`. -/
def axisLess (axis : Int) (a b : Primitive) : Bool :=
  decide ((a.getBoundingBox.getCenter.get axis) < (b.getBoundingBox.getCenter.get axis))

/-- The function `sort_by_axis`: sorts `[start, end)` by box centre on `axis`. -/
def sort_by_axis (S : StdSort) (primitives : List Primitive) (start end_ : Nat)
    (axis : Int) : Option (List Primitive) :=
  if end_ ≤ primitives.length ∧ start < end_ then
    some (primitives.take start ++ S.run (axisLess axis) (slice primitives start end_)
            ++ primitives.drop end_)
  else none

/-- The function `make_bbox`: the union of the boxes of `[start, end)`. -/
def make_bbox (primitives : List Primitive) (start end_ : Nat) : BoundingBox :=
  (slice primitives start end_).foldl (fun bbox p => bbox.Extend p.getBoundingBox)
    BoundingBox.empty

/-! ## Heuristic implementations -/

/-- The heuristic `Build_Naive`. -/
def Build_Naive : BVHBuilder :=
  fun primitives _ _ _ _ => some (-1, primitives)

/-- The heuristic `Build_Alternate`. -/
def Build_Alternate (S : StdSort) : BVHBuilder :=
  fun primitives start end_ _ depth =>
    let split_axis := Int.tmod depth 3
    match sort_by_axis S primitives start end_ split_axis with
    | none => none
    | some primitives =>
      let mid := (start + end_) / 2
      some ((mid : Int), primitives)

/-- The heuristic `Build_Longest`. -/
def Build_Longest (S : StdSort) : BVHBuilder :=
  fun primitives start end_ bbox _ =>
    if usub end_ start ≤ 2 then some (-1, primitives)
    else
      let size : Vec3f := ⟨bbox.getMax.x - bbox.getMin.x, bbox.getMax.y - bbox.getMin.y,
                           bbox.getMax.z - bbox.getMin.z⟩
      let split_axis : Int :=
        if size.x ≥ size.y ∧ size.x ≥ size.z then 0
        else if size.y ≥ size.x ∧ size.y ≥ size.z then 1
        else 2
      match sort_by_axis S primitives start end_ split_axis with
      | none => none
      | some primitives =>
        let mid := (start + end_) / 2
        some ((mid : Int), primitives)

/-- The running minimum of `Build_SurfaceArea`. -/
structure SahBest where
  best_score : FScore
  best_axis : Int
  best_split : Int
deriving DecidableEq

/-- The backward sweep of `Build_SurfaceArea`: entry `k` is the box that the running
`right` holds after it has been extended by the elements from the last down to the
`k`-th of the range. -/
def right_bboxes_of : List Primitive → List BoundingBox
  | [] => []
  | p :: ps =>
    let rest := right_bboxes_of ps
    ((rest.headD BoundingBox.empty).Extend p.getBoundingBox) :: rest

/-- The forward sweep of `Build_SurfaceArea`: the loop `for (mid = start + 1; mid < end;
mid++)`, run over the elements `primitives[mid], ..., primitives[end - 1]`. -/
def sahSweep (start end_ : Nat) (surfaceArea : ℚ) (split_axis : Int)
    (right_bboxes : List BoundingBox) :
    List Primitive → Nat → BoundingBox → SahBest → SahBest
  | [], _, _, best => best
  | p :: rest, mid, left, best =>
    let left := left.Extend p.getBoundingBox
    let right := right_bboxes.getD (mid - start) BoundingBox.empty
    let score := fdiv (left.SurfaceArea * ((mid - start : Nat) : ℚ)
                        + right.SurfaceArea * ((end_ - mid : Nat) : ℚ)) surfaceArea
    let best := if score.lt best.best_score then
        { best_score := score, best_axis := split_axis, best_split := (mid : Int) }
      else best
    sahSweep start end_ surfaceArea split_axis right_bboxes rest (mid + 1) left best

/-- One iteration of the loop over `split_axis` in `Build_SurfaceArea`. -/
def sahAxis (S : StdSort) (start end_ : Nat) (bbox : BoundingBox) (split_axis : Int)
    (primitives : List Primitive) (best : SahBest) : Option (List Primitive × SahBest) :=
  match sort_by_axis S primitives start end_ split_axis with
  | none => none
  | some primitives =>
    if end_ = 0 ∨ ¬ start < end_ then none
    else
      match slice primitives start end_ with
      | [] => none
      | first :: rest =>
        let right_bboxes := right_bboxes_of (first :: rest)
        let surfaceArea := bbox.SurfaceArea
        let left := BoundingBox.empty.Extend first.getBoundingBox
        some (primitives,
          sahSweep start end_ surfaceArea split_axis right_bboxes rest (start + 1) left best)

/-- The loop `for (split_axis = 0; split_axis < 3; split_axis++)`, over the axes
still to be tried. -/
def sahAxes (S : StdSort) (start end_ : Nat) (bbox : BoundingBox) :
    List Int → List Primitive → SahBest → Option (List Primitive × SahBest)
  | [], primitives, best => some (primitives, best)
  | split_axis :: axes, primitives, best =>
    match sahAxis S start end_ bbox split_axis primitives best with
    | none => none
    | some (primitives, best) => sahAxes S start end_ bbox axes primitives best

/-- The heuristic `Build_SurfaceArea`. -/
def Build_SurfaceArea (S : StdSort) : BVHBuilder :=
  fun primitives start end_ bbox _ =>
    if usub end_ start ≤ 2 then some (-1, primitives)
    else
      match sahAxes S start end_ bbox [0, 1, 2] primitives
              { best_score := FScore.posInf, best_axis := -1, best_split := -1 } with
      | none => none
      | some (primitives, best) =>
        if best.best_axis = -1 then some (-1, primitives)
        else
          match sort_by_axis S primitives start end_ best.best_axis with
          | none => none
          | some primitives => some (best.best_split, primitives)

/-- The dispatch of `BVH::Build` from the heuristic to its implementation. -/
def builderOf (S : StdSort) : BVH_Heuristic → BVHBuilder
  | .BVH_NaiveFlat => Build_Naive
  | .BVH_LongestAxis_Median => Build_Longest S
  | .BVH_AlternateAxis_Median => Build_Alternate S
  | .BVH_BestAxis_SurfaceArea => Build_SurfaceArea S

/-! ## The tree -/

/-- The class `BVH`: a node owns its box and its two children (either may be null)
and holds a list of borrowed primitives. -/
inductive BVH where
  | mk (bbox : BoundingBox) (depth : Int) (child1 child2 : Option BVH)
      (primitives : List Primitive)

/-- The accessor `getBoundingBox`. -/
def BVH.getBoundingBox : BVH → BoundingBox
  | .mk bbox _ _ _ _ => bbox

/-- The accessor `getChild1`. -/
def BVH.getChild1 : BVH → Option BVH
  | .mk _ _ child1 _ _ => child1

/-- The accessor `getChild2`. -/
def BVH.getChild2 : BVH → Option BVH
  | .mk _ _ _ child2 _ => child2

/-- The accessor `getPrimitives`. -/
def BVH.getPrimitives : BVH → List Primitive
  | .mk _ _ _ _ primitives => primitives

/-- The field `depth`. -/
def BVH.getDepth : BVH → Int
  | .mk _ depth _ _ _ => depth

/-- The method `isLeaf`: true with no child, false with two, and a failed assertion
with exactly one. -/
def BVH.isLeaf : BVH → Option Bool
  | .mk _ _ none none _ => some true
  | .mk _ _ (some _) (some _) _ => some false
  | .mk _ _ _ _ _ => none

/-- The function `BuildHelper`.  The `fuel` bounds the depth of the recursion. -/
def BuildHelper (b : BVHBuilder) :
    Nat → List Primitive → Nat → Nat → Int → Option (BVH × List Primitive)
  | 0, _, _, _, _ => none
  | fuel + 1, primitives, start, end_, depth =>
    let bbox := make_bbox primitives start end_
    let r : Option (Int × List Primitive) :=
      if usub end_ start > 2 then b primitives start end_ bbox depth
      else some (-1, primitives)
    match r with
    | none => none
    | some (mid, primitives) =>
      if mid = -1 then
        some (BVH.mk bbox depth none none (slice primitives start end_), primitives)
      else
        match BuildHelper b fuel primitives start (toUInt mid) (depth + 1) with
        | none => none
        | some (child1, primitives) =>
          match BuildHelper b fuel primitives (toUInt mid) end_ (depth + 1) with
          | none => none
          | some (child2, primitives) =>
            some (BVH.mk bbox depth (some child1) (some child2) [], primitives)

/-- The method `primitiveCount`.  The three cases are the three outcomes of `isLeaf()`:
a leaf, an inner node, and the failed assertion. -/
def BVH.primitiveCount : BVH → Option Nat
  | .mk _ _ none none primitives => some primitives.length
  | .mk _ _ (some child1) (some child2) _ =>
    match child1.primitiveCount, child2.primitiveCount with
    | some c1, some c2 => some (c1 + c2)
    | _, _ => none
  | .mk _ _ _ _ _ => none

/-- The method `computeHeight`, by the three outcomes of `isLeaf()`. -/
def BVH.computeHeight : BVH → Option Nat
  | .mk _ _ none none _ => some 0
  | .mk _ _ (some child1) (some child2) _ =>
    match child1.computeHeight, child2.computeHeight with
    | some h1, some h2 => some (1 + max h1 h2)
    | _, _ => none
  | .mk _ _ _ _ _ => none

/-- The number of primitives of a leaf whose box is not inside `bbox`: the loop of the
leaf branch of `checkRepr`. -/
def leafViolations (bbox : BoundingBox) : List Primitive → Int
  | [] => 0
  | p :: ps =>
    (if !(p.getBoundingBox.isSubset bbox) then 1 else 0) + leafViolations bbox ps

/-- The method `checkRepr`: the number of violations found, by the three outcomes of
`isLeaf()`. -/
def BVH.checkRepr : BVH → Option Int
  | .mk bbox _ none none primitives => some (leafViolations bbox primitives)
  | .mk bbox _ (some child1) (some child2) primitives =>
    let count : Int := 0
    let count := if !primitives.isEmpty then count + 1 else count
    let count := if !(child1.getBoundingBox.isSubset bbox) then count + 1 else count
    let count := if !(child2.getBoundingBox.isSubset bbox) then count + 1 else count
    match child1.checkRepr, child2.checkRepr with
    | some e1, some e2 => some (count + e1 + e2)
    | _, _ => none
  | .mk _ _ _ _ _ => none

/-- The loop over the primitives of a leaf in `CastRay`. -/
def castLeaf {Ray Hit : Type} (intersect : Primitive → Ray → Hit → Bool × Hit)
    (ray : Ray) : List Primitive → Bool → Hit → Bool × Hit
  | [], ans, hit => (ans, hit)
  | p :: ps, ans, hit =>
    let r := intersect p ray hit
    castLeaf intersect ray ps (if r.1 then true else ans) r.2

/-- The method `CastRay`.  `Ray` and `Hit` are declared outside the sources and are
parameters, with `boxIntersect` for `BoundingBox::intersect`, `intersect` for
`Primitive::intersect` and `fresh` for a default-constructed `Hit`. -/
def BVH.CastRay {Ray Hit : Type} (boxIntersect : BoundingBox → Ray → Hit → Bool × Hit)
    (intersect : Primitive → Ray → Hit → Bool × Hit) (fresh : Hit) :
    BVH → Ray → Hit → Option (Bool × Hit)
  | .mk bbox _ child1 child2 primitives, ray, hit =>
    let hit1 := fresh
    if !(boxIntersect bbox ray hit1).1 then some (false, hit)
    else
      match child1, child2 with
      | none, none => some (castLeaf intersect ray primitives false hit)
      | some child1, some child2 =>
        match child1.CastRay boxIntersect intersect fresh ray hit with
        | none => none
        | some (r1, hit) =>
          let ans := if r1 then true else false
          match child2.CastRay boxIntersect intersect fresh ray hit with
          | none => none
          | some (r2, hit) => some ((if r2 then true else ans), hit)
      | _, _ => none

/-! ## Predicates and relations used by the theorems -/

/-- The split index `mid` separates the range of length `n` that starts at `start`. -/
def StrictSplit (start n : Nat) (mid : Int) : Prop :=
  (start : Int) < mid ∧ mid < ((start + n : Nat) : Int)

/-- The running minimum holds a split inside the range as soon as it holds an axis. -/
def SahBest.Inside (start end_ : Nat) (best : SahBest) : Prop :=
  best.best_axis ≠ -1 → (start : Int) < best.best_split ∧ best.best_split < (end_ : Int)

/-- The axis `Build_Longest` sorts by: the first axis on which `bbox` is longest. -/
def longestAxis (bbox : BoundingBox) : Int :=
  if bbox.getMax.x - bbox.getMin.x ≥ bbox.getMax.y - bbox.getMin.y ∧
      bbox.getMax.x - bbox.getMin.x ≥ bbox.getMax.z - bbox.getMin.z then 0
  else if bbox.getMax.y - bbox.getMin.y ≥ bbox.getMax.x - bbox.getMin.x ∧
      bbox.getMax.y - bbox.getMin.y ≥ bbox.getMax.z - bbox.getMin.z then 1
  else 2

/-- The union of the boxes of a list of primitives, as `make_bbox` accumulates it. -/
def boxOf (M : List Primitive) : BoundingBox :=
  M.foldl (fun bbox p => bbox.Extend p.getBoundingBox) BoundingBox.empty

/-- What `BuildHelper` relies on when it calls a heuristic on a range of more than two
primitives: the call returns, reorders the range only, and answers `-1` or a split
strictly inside the range. -/
def SplitContract (b : BVHBuilder) : Prop :=
  ∀ (A M C : List Primitive) (bbox : BoundingBox) (depth : Int), 2 < M.length →
    ∃ mid M1, b (A ++ M ++ C) A.length (A.length + M.length) bbox depth
        = some (mid, A ++ M1 ++ C) ∧ M1.Perm M ∧
        (mid = -1 ∨ StrictSplit A.length M.length mid)

/-- The run of `BuildHelper` with builder `b` on a range holding `M` at depth `depth`:
the tree it returns and the order `M1` in which it leaves the range. -/
inductive Builds (b : BVHBuilder) : List Primitive → Int → BVH → List Primitive → Prop
  | forced (M : List Primitive) (depth : Int) (hM : M.length ≤ 2) :
      Builds b M depth (BVH.mk (boxOf M) depth none none M) M
  | declined (A M C M1 : List Primitive) (depth : Int) (hM : 2 < M.length)
      (hb : b (A ++ M ++ C) A.length (A.length + M.length) (boxOf M) depth
              = some (-1, A ++ M1 ++ C))
      (hp : M1.Perm M) :
      Builds b M depth (BVH.mk (boxOf M) depth none none M1) M1
  | split (A M C L R L1 R1 : List Primitive) (depth : Int) (child1 child2 : BVH)
      (hM : 2 < M.length)
      (hb : b (A ++ M ++ C) A.length (A.length + M.length) (boxOf M) depth
              = some (((A.length + L.length : Nat) : Int), A ++ (L ++ R) ++ C))
      (hL : L ≠ []) (hR : R ≠ []) (hp : (L ++ R).Perm M)
      (h1 : Builds b L (depth + 1) child1 L1) (h2 : Builds b R (depth + 1) child2 R1) :
      Builds b M depth (BVH.mk (boxOf M) depth (some child1) (some child2) []) (L1 ++ R1)

/-- The nodes of a tree, in the pre-order of `packMesh`: the node, then the subtree
of `child1`, then the subtree of `child2`. -/
def BVH.nodes : BVH → List BVH
  | .mk bbox depth child1 child2 primitives =>
    BVH.mk bbox depth child1 child2 primitives ::
      ((match child1 with
        | none => []
        | some c => c.nodes) ++
       (match child2 with
        | none => []
        | some c => c.nodes))

/-- The primitives stored in a subtree: those of the node, then those under `child1`,
then those under `child2`. -/
def BVH.leafPrimitives : BVH → List Primitive
  | .mk _ _ child1 child2 primitives =>
    primitives ++
      ((match child1 with
        | none => []
        | some c => c.leafPrimitives) ++
       (match child2 with
        | none => []
        | some c => c.leafPrimitives))

/-- A node has both children or neither, and no primitives of its own when it has
children. -/
def BVH.ExclusiveNode (n : BVH) : Prop :=
  ((n.getChild1 = none ∧ n.getChild2 = none) ∨ (n.getChild1 ≠ none ∧ n.getChild2 ≠ none))
    ∧ ((n.getChild1 ≠ none ∨ n.getChild2 ≠ none) → n.getPrimitives = [])

/-- Calling `intersect` on every primitive of a list in sequence, threading the hit
record and recording whether any call returned true. -/
def linearScan {Ray Hit : Type} (intersect : Primitive → Ray → Hit → Bool × Hit)
    (ray : Ray) : List Primitive → Hit → Bool × Hit
  | [], hit => (false, hit)
  | p :: ps, hit =>
    let r := intersect p ray hit
    let rest := linearScan intersect ray ps r.2
    (r.1 || rest.1, rest.2)

/-- Nearest-hit semantics of `Primitive::intersect`: with `hitDist p ray` the distance at
which `ray` meets `p` (if it does) and `dist hit` the distance recorded in `hit`, the
call returns true and records the distance of `p` exactly when that distance is smaller
than the recorded one, and otherwise returns false and leaves the record as it is. -/
def NearestHit {Ray Hit D : Type} [LinearOrder D]
    (intersect : Primitive → Ray → Hit → Bool × Hit) (dist : Hit → D)
    (hitDist : Primitive → Ray → Option D) : Prop :=
  ∀ (p : Primitive) (ray : Ray) (hit : Hit),
    (∀ d, hitDist p ray = some d → d < dist hit →
        (intersect p ray hit).1 = true ∧ dist (intersect p ray hit).2 = d) ∧
    ((∀ d, hitDist p ray = some d → ¬ d < dist hit) → intersect p ray hit = (false, hit))

/-- A ray that meets a primitive also meets every box that contains the box of the
primitive. -/
def BoxesCoverHits {Ray Hit D : Type}
    (boxIntersect : BoundingBox → Ray → Hit → Bool × Hit) (fresh : Hit)
    (hitDist : Primitive → Ray → Option D) : Prop :=
  ∀ (p : Primitive) (ray : Ray) (B : BoundingBox) (d : D),
    hitDist p ray = some d → p.getBoundingBox.isSubset B = true →
    (boxIntersect B ray fresh).1 = true

/-- The inclusions that `checkRepr` counts violations of, at one node: the box of
every primitive of a leaf lies inside the box of the leaf, and the box of each child
lies inside the box of the node. -/
def BVH.ContainedNode (n : BVH) : Prop :=
  (n.isLeaf = some true →
      ∀ p ∈ n.getPrimitives, p.getBoundingBox.isSubset n.getBoundingBox = true) ∧
    (∀ c, (n.getChild1 = some c ∨ n.getChild2 = some c) →
      c.getBoundingBox.isSubset n.getBoundingBox = true)

/-! ## Reference instances -/

/-- An instance of `StdSort`: merge sort with the comparator of `std::sort` turned into
a non-strict one. -/
def refSort : StdSort where
  run := fun lt l => l.mergeSort (fun a b => !lt b a)
  perm := fun lt l _ => List.mergeSort_perm l _
  sorted := by
    intro lt l h
    have htrans : ∀ a b c : Primitive, (!lt b a) = true → (!lt c b) = true →
        (!lt c a) = true := by
      intro a b c hab hbc
      simp only [Bool.not_eq_true', Bool.not_eq_eq_eq_not, Bool.not_true] at *
      exact h.negTrans c b a hbc hab
    have htotal : ∀ a b : Primitive, ((!lt b a) || (!lt a b)) = true := by
      intro a b
      cases hba : lt b a
      · simp [hba]
      · simp [h.asymm b a hba]
    have hs := @List.sorted_mergeSort Primitive (fun a b => !lt b a) htrans htotal l
    refine hs.imp ?_
    intro a b hab
    simpa using hab

/-- A primitive at address `addr` whose box is the unit cube with least corner
`(x, y, z)`. -/
def unitCube (addr : Nat) (x y z : ℚ) : Primitive :=
  ⟨addr, BoundingBox.box ⟨x, y, z⟩ ⟨x + 1, y + 1, z + 1⟩⟩

/-- Two clusters far apart along the x axis: three unit cubes next to the origin and
one unit cube at `x = 1000`. -/
def clusterScene : List Primitive :=
  [unitCube 0 0 0 0, unitCube 1 1 1 1, unitCube 2 2 2 2, unitCube 3 1000 3 3]

/-- A ray parallel to the z axis through `(x, y)`, coming from far below. -/
structure ZRay where
  x : ℚ
  y : ℚ

/-- Whether the ray passes through the box. -/
def BoundingBox.coversZ : BoundingBox → ZRay → Bool
  | .empty, _ => false
  | .box mn mx, ray =>
    decide (mn.x ≤ ray.x) && decide (ray.x ≤ mx.x) &&
    decide (mn.y ≤ ray.y) && decide (ray.y ≤ mx.y)

/-- A box test for `ZRay` that records nothing. -/
def zBoxIntersect (B : BoundingBox) (ray : ZRay) (hit : WithTop ℚ) : Bool × WithTop ℚ :=
  (B.coversZ ray, hit)

/-- The distance at which a `ZRay` meets a primitive that fills its box: the height of
the lower face. -/
def zHitDist (p : Primitive) (ray : ZRay) : Option (WithTop ℚ) :=
  if p.getBoundingBox.coversZ ray then some ((p.getBoundingBox.getMin.z : ℚ) : WithTop ℚ)
  else none

/-- An `intersect` for primitives that fill their boxes, with nearest-hit semantics. -/
def zIntersect (p : Primitive) (ray : ZRay) (hit : WithTop ℚ) : Bool × WithTop ℚ :=
  if p.getBoundingBox.coversZ ray ∧ ((p.getBoundingBox.getMin.z : ℚ) : WithTop ℚ) < hit then
    (true, ((p.getBoundingBox.getMin.z : ℚ) : WithTop ℚ))
  else (false, hit)

/-- A tree of height one over two unit cubes stacked along z. -/
def stackTree : BVH :=
  BVH.mk (BoundingBox.box ⟨0, 0, 0⟩ ⟨1, 1, 6⟩) 0
    (some (BVH.mk (BoundingBox.box ⟨0, 0, 5⟩ ⟨1, 1, 6⟩) 1 none none [unitCube 0 0 0 5]))
    (some (BVH.mk (BoundingBox.box ⟨0, 0, 0⟩ ⟨1, 1, 1⟩) 1 none none [unitCube 1 0 0 0]))
    []

/-! ## Further predicates, traces and samples -/

/-- The concatenation of the primitive lists of the leaves of a tree, from left to
right: the leaves under `child1` before those under `child2`. -/
def BVH.leafLists : BVH → List Primitive
  | .mk _ _ none none primitives => primitives
  | .mk _ _ (some child1) (some child2) _ => child1.leafLists ++ child2.leafLists
  | .mk _ _ (some child1) none _ => child1.leafLists
  | .mk _ _ none (some child2) _ => child2.leafLists

/-- The box of a node is tight: the box of a leaf is the union of the boxes of the
primitives it stores, and the box of a node with two children is the union of the
boxes of the two children. -/
def BVH.TightNode (n : BVH) : Prop :=
  (n.isLeaf = some true → n.getBoundingBox = boxOf n.getPrimitives) ∧
    (∀ c1 c2, n.getChild1 = some c1 → n.getChild2 = some c2 →
      n.getBoundingBox = c1.getBoundingBox.Extend c2.getBoundingBox)

/-- The function `bvh_parse_heuristic`; the failed `assert(0)` after the diagnostic is
`none`. -/
def bvh_parse_heuristic (name : String) : Option BVH_Heuristic :=
  if name = "" then some BVH_Heuristic.BVH_LongestAxis_Median
  else if name = "naive" then some BVH_Heuristic.BVH_NaiveFlat
  else if name = "longest" then some BVH_Heuristic.BVH_LongestAxis_Median
  else if name = "alternate" then some BVH_Heuristic.BVH_AlternateAxis_Median
  else if name = "surface_area" then some BVH_Heuristic.BVH_BestAxis_SurfaceArea
  else none

/-- The function `bvh_heuristic_to_string`; the `default` branch of the switch is for
values outside the enumeration, which the type `BVH_Heuristic` does not have. -/
def bvh_heuristic_to_string : BVH_Heuristic → String
  | .BVH_NaiveFlat => "naive"
  | .BVH_LongestAxis_Median => "longest"
  | .BVH_AlternateAxis_Median => "alternate"
  | .BVH_BestAxis_SurfaceArea => "surface_area"

/-- A node has both children or neither. -/
def BVH.BothOrNeither (n : BVH) : Prop :=
  (n.getChild1 = none ∧ n.getChild2 = none) ∨ (n.getChild1 ≠ none ∧ n.getChild2 ≠ none)

/-- A malformed tree: the root has `child1` only. -/
def oneChildTree : BVH :=
  BVH.mk (BoundingBox.box ⟨0, 0, 0⟩ ⟨1, 1, 1⟩) 0
    (some (BVH.mk (BoundingBox.box ⟨0, 0, 0⟩ ⟨1, 1, 1⟩) 1 none none [unitCube 0 0 0 0]))
    none []

/-- The centre coordinate of the box of a primitive on an axis, the key by which
`sort_by_axis` compares. -/
def centreOn (axis : Int) (p : Primitive) : ℚ :=
  p.getBoundingBox.getCenter.get axis

/-- The extent `max - min` of a box on an axis. -/
def BoundingBox.extent (b : BoundingBox) (axis : Int) : ℚ :=
  b.getMax.get axis - b.getMin.get axis

/-- A node with two children is split on the axis `depth mod 3`: the children are one
level deeper, and on that axis no primitive under `child2` has its centre below the
centre of a primitive under `child1`. -/
def BVH.SplitOnDepthAxis (n : BVH) : Prop :=
  ∀ c1 c2, n.getChild1 = some c1 → n.getChild2 = some c2 →
    c1.getDepth = n.getDepth + 1 ∧ c2.getDepth = n.getDepth + 1 ∧
    ∀ p ∈ c1.leafLists, ∀ q ∈ c2.leafLists,
      centreOn (n.getDepth % 3) p ≤ centreOn (n.getDepth % 3) q

/-- A builder that splits every range of more than two primitives at its midpoint. -/
def MedianBuilder (b : BVHBuilder) : Prop :=
  ∀ (A M C : List Primitive) (bbox : BoundingBox) (depth : Int), 2 < M.length →
    ∃ M1, b (A ++ M ++ C) A.length (A.length + M.length) bbox depth
      = some ((((A.length + (A.length + M.length)) / 2 : Nat) : Int), A ++ M1 ++ C)

/-- A node is balanced: a leaf holds one or two primitives, and the primitive counts of
the two children of an inner node differ by at most one. -/
def BVH.BalancedNode (n : BVH) : Prop :=
  (n.isLeaf = some true → n.getPrimitives.length = 1 ∨ n.getPrimitives.length = 2) ∧
    (∀ c1 c2, n.getChild1 = some c1 → n.getChild2 = some c2 →
      ∃ k1 k2, c1.primitiveCount = some k1 ∧ c2.primitiveCount = some k2 ∧
        k1 ≤ k2 + 1 ∧ k2 ≤ k1 + 1)

/-- The scores of the forward sweep of `Build_SurfaceArea`: the loop of `sahSweep`,
returning for every candidate `mid` the value of `score` computed in its body. -/
def sahScores (start end_ : Nat) (surfaceArea : ℚ) (right_bboxes : List BoundingBox) :
    List Primitive → Nat → BoundingBox → List (Nat × FScore)
  | [], _, _ => []
  | p :: rest, mid, left =>
    let left := left.Extend p.getBoundingBox
    let right := right_bboxes.getD (mid - start) BoundingBox.empty
    let score := fdiv (left.SurfaceArea * ((mid - start : Nat) : ℚ)
                        + right.SurfaceArea * ((end_ - mid : Nat) : ℚ)) surfaceArea
    (mid, score) :: sahScores start end_ surfaceArea right_bboxes rest (mid + 1) left

/-- The update of the running minimum in the body of the forward sweep, for the
candidate `c.1` with score `c.2`. -/
def sahRecord (split_axis : Int) (best : SahBest) (c : Nat × FScore) : SahBest :=
  if c.2.lt best.best_score then
    { best_score := c.2, best_axis := split_axis, best_split := (c.1 : Int) }
  else best

/-- The cost of the candidate `mid` as the spec words it, for the axis-sorted range
`sorted` that occupies `[start, end)`: the surface area of the union of the boxes at
`[start, mid)` times their number, plus the surface area of the union of the boxes at
`[mid, end)` times their number, over the surface area of the parent box. -/
def sahCostSpec (bbox : BoundingBox) (sorted : List Primitive) (start mid end_ : Nat) :
    FScore :=
  fdiv ((boxOf (sorted.take (mid - start))).SurfaceArea * ((mid - start : Nat) : ℚ)
        + (boxOf (sorted.drop (mid - start))).SurfaceArea * ((end_ - mid : Nat) : ℚ))
    bbox.SurfaceArea

/-- The cost the forward sweep computes for the candidate `mid`: as `sahCostSpec`, but
with the left box taken over `[start, mid]`, the primitive at `mid` included. -/
def sahCostCode (bbox : BoundingBox) (sorted : List Primitive) (start mid end_ : Nat) :
    FScore :=
  fdiv ((boxOf (sorted.take (mid - start + 1))).SurfaceArea * ((mid - start : Nat) : ℚ)
        + (boxOf (sorted.drop (mid - start))).SurfaceArea * ((end_ - mid : Nat) : ℚ))
    bbox.SurfaceArea

/-- Three unit cubes, the first two with the same centre coordinate on the x axis. -/
def tieScene : List Primitive :=
  [unitCube 0 0 50 1, unitCube 1 0 0 0, unitCube 2 100 1 2]

/-! # Theorems -/

/-! ## Ranges of a list -/

theorem take_mid (A M C : List Primitive) : (A ++ M ++ C).take A.length = A := by
  simp [List.append_assoc, List.take_append_eq_append_take]

theorem drop_mid (A M C : List Primitive) :
    (A ++ M ++ C).drop (A.length + M.length) = C := by
  have h : A.length + M.length = (A ++ M).length := by simp
  rw [h, List.drop_left]

theorem slice_mid (A M C : List Primitive) :
    slice (A ++ M ++ C) A.length (A.length + M.length) = M := by
  unfold slice
  rw [List.append_assoc, List.drop_left, Nat.add_sub_cancel_left, List.take_left]

theorem usub_mid (a n : Nat) : usub (a + n) a = n := by
  simp [usub]

theorem toUInt_ofNat (n : Nat) : toUInt (n : Int) = n := by
  simp [toUInt]

theorem axisLess_strictWeak (axis : Int) : StrictWeak (axisLess axis) where
  asymm := by
    intro a b h
    simp only [axisLess, decide_eq_true_eq, decide_eq_false_iff_not, not_lt] at *
    exact le_of_lt h
  negTrans := by
    intro a b c h1 h2
    simp only [axisLess, decide_eq_true_eq, decide_eq_false_iff_not, not_lt] at *
    exact le_trans h2 h1

theorem sort_by_axis_mid (S : StdSort) (A M C : List Primitive) (axis : Int)
    (hM : M ≠ []) :
    sort_by_axis S (A ++ M ++ C) A.length (A.length + M.length) axis
      = some (A ++ S.run (axisLess axis) M ++ C) := by
  have hlen : 0 < M.length := List.length_pos.mpr hM
  unfold sort_by_axis
  rw [if_pos, take_mid, drop_mid, slice_mid]
  constructor
  · simp [List.length_append]
  · omega

theorem run_ne_nil (S : StdSort) (axis : Int) (M : List Primitive) (hM : M ≠ []) :
    S.run (axisLess axis) M ≠ [] := by
  exact fun h => hM (List.Perm.nil_eq (h ▸ S.perm (axisLess axis) M (axisLess_strictWeak axis))).symm

theorem run_length (S : StdSort) (axis : Int) (M : List Primitive) :
    (S.run (axisLess axis) M).length = M.length :=
  (S.perm (axisLess axis) M (axisLess_strictWeak axis)).length_eq

theorem ne_nil_of_perm {M1 M : List Primitive} (hp : M1.Perm M) (hM : M ≠ []) : M1 ≠ [] := by
  intro h
  rw [h] at hp
  exact hM (List.Perm.nil_eq hp).symm

/-! ## The heuristics on a range -/

theorem sahSweep_inside (start end_ : Nat) (sa : ℚ) (axis : Int) (rb : List BoundingBox) :
    ∀ (rest : List Primitive) (mid : Nat) (left : BoundingBox) (best : SahBest),
      best.Inside start end_ → start < mid → mid + rest.length ≤ end_ →
      (sahSweep start end_ sa axis rb rest mid left best).Inside start end_ := by
  intro rest
  induction rest with
  | nil => intro mid left best hb _ _; simpa [sahSweep] using hb
  | cons p rest ih =>
    intro mid left best hb hlo hhi
    simp only [sahSweep, List.length_cons] at *
    apply ih
    · split
      · intro _
        simp only
        omega
      · exact hb
    · omega
    · omega

theorem sahAxis_mid (S : StdSort) (A M C : List Primitive) (bbox : BoundingBox)
    (axis : Int) (best : SahBest) (hM : M ≠ [])
    (hb : best.Inside A.length (A.length + M.length)) :
    ∃ M1 best1, sahAxis S A.length (A.length + M.length) bbox axis (A ++ M ++ C) best
        = some (A ++ M1 ++ C, best1) ∧ M1.Perm M ∧
        best1.Inside A.length (A.length + M.length) := by
  have hp := S.perm (axisLess axis) M (axisLess_strictWeak axis)
  have hl := hp.length_eq
  have hpos : 0 < M.length := List.length_pos.mpr hM
  unfold sahAxis
  rw [sort_by_axis_mid S A M C axis hM]
  simp only
  rw [if_neg (by omega)]
  have hs : slice (A ++ S.run (axisLess axis) M ++ C) A.length (A.length + M.length)
      = S.run (axisLess axis) M := by
    have := slice_mid A (S.run (axisLess axis) M) C
    rwa [hl] at this
  rw [hs]
  cases hrun : S.run (axisLess axis) M with
  | nil => exact absurd hrun (run_ne_nil S axis M hM)
  | cons first rest =>
    rw [hrun] at hp hl
    refine ⟨first :: rest, _, rfl, hp, ?_⟩
    apply sahSweep_inside _ _ _ _ _ _ _ _ _ hb
    · omega
    · simp only [List.length_cons] at hl
      omega

theorem sahAxes_mid (S : StdSort) (A C : List Primitive) (bbox : BoundingBox) :
    ∀ (axes : List Int) (M : List Primitive) (best : SahBest), M ≠ [] →
      best.Inside A.length (A.length + M.length) →
      ∃ M1 best1, sahAxes S A.length (A.length + M.length) bbox axes (A ++ M ++ C) best
        = some (A ++ M1 ++ C, best1) ∧ M1.Perm M ∧
        best1.Inside A.length (A.length + M.length) := by
  intro axes
  induction axes with
  | nil => intro M best _ hb; exact ⟨M, best, rfl, List.Perm.refl M, hb⟩
  | cons axis axes ih =>
    intro M best hM hb
    obtain ⟨M1, best1, h1, hp1, hb1⟩ := sahAxis_mid S A M C bbox axis best hM hb
    have hM1 : M1 ≠ [] := ne_nil_of_perm hp1 hM
    have hl := hp1.length_eq
    rw [← hl] at hb1
    obtain ⟨M2, best2, h2, hp2, hb2⟩ := ih M1 best1 hM1 hb1
    refine ⟨M2, best2, ?_, hp2.trans hp1, by rw [← hl]; exact hb2⟩
    simp only [sahAxes, h1]
    rw [← hl]
    exact h2

theorem Build_Naive_mid (A M C : List Primitive) (bbox : BoundingBox) (depth : Int) :
    Build_Naive (A ++ M ++ C) A.length (A.length + M.length) bbox depth
      = some (-1, A ++ M ++ C) := rfl

theorem Build_Alternate_mid (S : StdSort) (A M C : List Primitive) (bbox : BoundingBox)
    (depth : Int) (hM : M ≠ []) :
    Build_Alternate S (A ++ M ++ C) A.length (A.length + M.length) bbox depth
      = some ((((A.length + (A.length + M.length)) / 2 : Nat) : Int),
              A ++ S.run (axisLess (Int.tmod depth 3)) M ++ C) := by
  simp only [Build_Alternate, sort_by_axis_mid S A M C _ hM]

theorem Build_Longest_mid (S : StdSort) (A M C : List Primitive) (bbox : BoundingBox)
    (depth : Int) (hM : 2 < M.length) :
    Build_Longest S (A ++ M ++ C) A.length (A.length + M.length) bbox depth
      = some ((((A.length + (A.length + M.length)) / 2 : Nat) : Int),
              A ++ S.run (axisLess (longestAxis bbox)) M ++ C) := by
  have hne : M ≠ [] := by intro h; simp [h] at hM
  simp only [Build_Longest, usub_mid, if_neg (not_le.mpr hM), longestAxis,
    sort_by_axis_mid S A M C _ hne]

theorem Build_Longest_small (S : StdSort) (A M C : List Primitive) (bbox : BoundingBox)
    (depth : Int) (hM : M.length ≤ 2) :
    Build_Longest S (A ++ M ++ C) A.length (A.length + M.length) bbox depth
      = some (-1, A ++ M ++ C) := by
  simp only [Build_Longest, usub_mid, if_pos hM]

theorem Build_SurfaceArea_small (S : StdSort) (A M C : List Primitive) (bbox : BoundingBox)
    (depth : Int) (hM : M.length ≤ 2) :
    Build_SurfaceArea S (A ++ M ++ C) A.length (A.length + M.length) bbox depth
      = some (-1, A ++ M ++ C) := by
  simp only [Build_SurfaceArea, usub_mid, if_pos hM]

theorem Build_SurfaceArea_mid (S : StdSort) (A M C : List Primitive) (bbox : BoundingBox)
    (depth : Int) (hM : 2 < M.length) :
    ∃ mid M1, Build_SurfaceArea S (A ++ M ++ C) A.length (A.length + M.length) bbox depth
        = some (mid, A ++ M1 ++ C) ∧ M1.Perm M ∧
        (mid = -1 ∨ StrictSplit A.length M.length mid) := by
  have hne : M ≠ [] := by intro h; simp [h] at hM
  obtain ⟨M1, best1, h1, hp1, hb1⟩ := sahAxes_mid S A C bbox [0, 1, 2] M
    { best_score := FScore.posInf, best_axis := -1, best_split := -1 } hne
    (by intro h; exact absurd rfl h)
  simp only [Build_SurfaceArea, usub_mid, if_neg (not_le.mpr hM), h1]
  by_cases hax : best1.best_axis = -1
  · rw [if_pos hax]
    exact ⟨-1, M1, rfl, hp1, Or.inl rfl⟩
  · rw [if_neg hax]
    have hM1 : M1 ≠ [] := ne_nil_of_perm hp1 hne
    have hl := hp1.length_eq
    have hs := sort_by_axis_mid S A M1 C best1.best_axis hM1
    rw [hl] at hs
    rw [hs]
    refine ⟨best1.best_split, _, rfl,
      (S.perm _ M1 (axisLess_strictWeak _)).trans hp1, Or.inr ?_⟩
    exact hb1 hax

/-! ## The builder -/

theorem make_bbox_mid (A M C : List Primitive) :
    make_bbox (A ++ M ++ C) A.length (A.length + M.length) = boxOf M := by
  simp only [make_bbox, slice_mid, boxOf]

theorem Build_Naive_contract : SplitContract Build_Naive :=
  fun _ M _ _ _ _ => ⟨-1, M, rfl, List.Perm.refl M, Or.inl rfl⟩

theorem median_strictSplit (a n : Nat) (hn : 2 ≤ n) :
    StrictSplit a n (((a + (a + n)) / 2 : Nat) : Int) := by
  unfold StrictSplit
  omega

theorem Build_Alternate_contract (S : StdSort) : SplitContract (Build_Alternate S) := by
  intro A M C bbox depth hM
  have hne : M ≠ [] := by intro h; simp [h] at hM
  exact ⟨_, _, Build_Alternate_mid S A M C bbox depth hne,
    S.perm _ M (axisLess_strictWeak _), Or.inr (median_strictSplit _ _ (by omega))⟩

theorem Build_Longest_contract (S : StdSort) : SplitContract (Build_Longest S) := by
  intro A M C bbox depth hM
  exact ⟨_, _, Build_Longest_mid S A M C bbox depth hM,
    S.perm _ M (axisLess_strictWeak _), Or.inr (median_strictSplit _ _ (by omega))⟩

theorem Build_SurfaceArea_contract (S : StdSort) : SplitContract (Build_SurfaceArea S) :=
  fun A M C bbox depth hM => Build_SurfaceArea_mid S A M C bbox depth hM

theorem builderOf_contract (S : StdSort) (h : BVH_Heuristic) :
    SplitContract (builderOf S h) := by
  cases h
  · exact Build_Naive_contract
  · exact Build_Longest_contract S
  · exact Build_Alternate_contract S
  · exact Build_SurfaceArea_contract S

theorem Builds.perm {b : BVHBuilder} {M M1 : List Primitive} {depth : Int} {t : BVH}
    (h : Builds b M depth t M1) : M1.Perm M := by
  induction h with
  | forced M depth hM => exact List.Perm.refl M
  | declined A M C M1 depth hM hb hp => exact hp
  | split A M C L R L1 R1 depth child1 child2 hM hb hL hR hp h1 h2 ih1 ih2 =>
    exact (List.Perm.append ih1 ih2).trans hp

theorem BuildHelper_builds (b : BVHBuilder) (hb : SplitContract b) :
    ∀ (fuel : Nat) (A M C : List Primitive) (depth : Int), M.length < fuel →
      ∃ t M1, BuildHelper b fuel (A ++ M ++ C) A.length (A.length + M.length) depth
          = some (t, A ++ M1 ++ C) ∧ Builds b M depth t M1 := by
  intro fuel
  induction fuel with
  | zero => intro A M C depth h; omega
  | succ fuel ih =>
    intro A M C depth hfuel
    unfold BuildHelper
    simp only [make_bbox_mid, usub_mid]
    by_cases hM : 2 < M.length
    · obtain ⟨mid, M1, hcall, hp, hmid⟩ := hb A M C (boxOf M) depth hM
      have hl := hp.length_eq
      rw [if_pos hM, hcall]
      simp only
      rcases hmid with hmid | ⟨hlo, hhi⟩
      · subst hmid
        rw [if_pos rfl]
        have hs : slice (A ++ M1 ++ C) A.length (A.length + M.length) = M1 := by
          rw [← hl]; exact slice_mid A M1 C
        rw [hs]
        exact ⟨_, M1, rfl, Builds.declined A M C M1 depth hM hcall hp⟩
      · have hne : mid ≠ -1 := by omega
        rw [if_neg hne]
        obtain ⟨k, hk⟩ : ∃ k : Nat, mid = ((A.length + k : Nat) : Int) :=
          ⟨(mid - A.length).toNat, by omega⟩
        subst hk
        have hk0 : 0 < k := by omega
        have hkM : k < M1.length := by omega
        rw [toUInt_ofNat]
        have hsplit : M1 = M1.take k ++ M1.drop k := (List.take_append_drop k M1).symm
        have hLlen : (M1.take k).length = k := by
          rw [List.length_take]; omega
        have hRlen : (M1.drop k).length = M.length - k := by
          rw [List.length_drop]; omega
        obtain ⟨c1, L1, hc1, hB1⟩ := ih A (M1.take k) (M1.drop k ++ C) (depth + 1)
          (by omega)
        have hL1 := hB1.perm.length_eq
        have e1 : A ++ M1 ++ C = A ++ M1.take k ++ (M1.drop k ++ C) := by
          rw [List.append_assoc A (M1.take k), ← List.append_assoc (M1.take k),
            List.take_append_drop, List.append_assoc]
        rw [e1]
        rw [hLlen] at hc1
        rw [hc1]
        simp only
        obtain ⟨c2, R1, hc2, hB2⟩ := ih (A ++ L1) (M1.drop k) C (depth + 1) (by omega)
        have e2 : A ++ L1 ++ (M1.drop k ++ C) = A ++ L1 ++ M1.drop k ++ C := by
          simp only [List.append_assoc]
        have e3 : (A ++ L1).length = A.length + k := by
          rw [List.length_append]; omega
        have e4 : A.length + k + (M1.drop k).length = A.length + M.length := by
          rw [hRlen]; omega
        rw [e3, e4, ← e2] at hc2
        rw [hc2]
        refine ⟨BVH.mk (boxOf M) depth (some c1) (some c2) [], L1 ++ R1, ?_, ?_⟩
        · simp only [List.append_assoc]
        · refine Builds.split A M C (M1.take k) (M1.drop k) L1 R1 depth c1 c2 hM ?_ ?_ ?_ ?_
            hB1 hB2
          · rw [hLlen, List.take_append_drop]; exact hcall
          · intro h; rw [h] at hLlen; simp at hLlen; omega
          · intro h; rw [h] at hRlen; simp at hRlen; omega
          · rw [List.take_append_drop]; exact hp
    · rw [if_neg hM]
      simp only [if_true, slice_mid]
      exact ⟨_, M, rfl, Builds.forced M depth (by omega)⟩

/-! ## Boxes -/

theorem isSubset_refl (a : BoundingBox) : a.isSubset a = true := by
  cases a <;> simp [BoundingBox.isSubset]

theorem isSubset_trans {a b c : BoundingBox} (hab : a.isSubset b = true)
    (hbc : b.isSubset c = true) : a.isSubset c = true := by
  cases a <;> cases b <;> cases c <;>
    simp only [BoundingBox.isSubset, Bool.and_eq_true, decide_eq_true_eq] at * <;>
    try contradiction
  obtain ⟨⟨⟨⟨⟨h1, h2⟩, h3⟩, h4⟩, h5⟩, h6⟩ := hab
  obtain ⟨⟨⟨⟨⟨g1, g2⟩, g3⟩, g4⟩, g5⟩, g6⟩ := hbc
  exact ⟨⟨⟨⟨⟨le_trans g1 h1, le_trans g2 h2⟩, le_trans g3 h3⟩, le_trans h4 g4⟩,
    le_trans h5 g5⟩, le_trans h6 g6⟩

theorem isSubset_Extend_left (a b : BoundingBox) : a.isSubset (a.Extend b) = true := by
  cases a <;> cases b <;> simp [BoundingBox.isSubset, BoundingBox.Extend]

theorem isSubset_Extend_right (a b : BoundingBox) : b.isSubset (a.Extend b) = true := by
  cases a <;> cases b <;> simp [BoundingBox.isSubset, BoundingBox.Extend]

theorem Extend_isSubset {a b c : BoundingBox} (hac : a.isSubset c = true)
    (hbc : b.isSubset c = true) : (a.Extend b).isSubset c = true := by
  cases a <;> cases b <;> cases c <;>
    simp only [BoundingBox.isSubset, BoundingBox.Extend, Bool.and_eq_true,
      decide_eq_true_eq] at * <;>
    try contradiction
  · exact hbc
  · exact hac
  · obtain ⟨⟨⟨⟨⟨h1, h2⟩, h3⟩, h4⟩, h5⟩, h6⟩ := hac
    obtain ⟨⟨⟨⟨⟨g1, g2⟩, g3⟩, g4⟩, g5⟩, g6⟩ := hbc
    exact ⟨⟨⟨⟨⟨le_min h1 g1, le_min h2 g2⟩, le_min h3 g3⟩, max_le h4 g4⟩,
      max_le h5 g5⟩, max_le h6 g6⟩

theorem foldl_Extend_init (M : List Primitive) :
    ∀ init : BoundingBox,
      init.isSubset (M.foldl (fun bbox p => bbox.Extend p.getBoundingBox) init) = true := by
  induction M with
  | nil => intro init; exact isSubset_refl init
  | cons p M ih =>
    intro init
    exact isSubset_trans (isSubset_Extend_left init p.getBoundingBox) (ih _)

theorem foldl_Extend_mem (M : List Primitive) :
    ∀ (init : BoundingBox) (p : Primitive), p ∈ M →
      p.getBoundingBox.isSubset
        (M.foldl (fun bbox p => bbox.Extend p.getBoundingBox) init) = true := by
  induction M with
  | nil => intro init p hp; cases hp
  | cons q M ih =>
    intro init p hp
    rcases List.mem_cons.mp hp with h | h
    · subst h
      exact isSubset_trans (isSubset_Extend_right init p.getBoundingBox)
        (foldl_Extend_init M _)
    · exact ih _ p h

theorem foldl_Extend_least (B : BoundingBox) (M : List Primitive) :
    ∀ init : BoundingBox, init.isSubset B = true →
      (∀ p ∈ M, p.getBoundingBox.isSubset B = true) →
      (M.foldl (fun bbox p => bbox.Extend p.getBoundingBox) init).isSubset B = true := by
  induction M with
  | nil => intro init h _; exact h
  | cons q M ih =>
    intro init h hM
    exact ih _ (Extend_isSubset h (hM q (List.mem_cons_self q M)))
      (fun p hp => hM p (List.mem_cons_of_mem q hp))

theorem mem_boxOf {M : List Primitive} {p : Primitive} (hp : p ∈ M) :
    p.getBoundingBox.isSubset (boxOf M) = true :=
  foldl_Extend_mem M BoundingBox.empty p hp

theorem boxOf_isSubset {M : List Primitive} {B : BoundingBox}
    (h : ∀ p ∈ M, p.getBoundingBox.isSubset B = true) : (boxOf M).isSubset B = true :=
  foldl_Extend_least B M BoundingBox.empty rfl h

theorem boxOf_mono {L M : List Primitive} (h : ∀ p ∈ L, p ∈ M) :
    (boxOf L).isSubset (boxOf M) = true :=
  boxOf_isSubset (fun p hp => mem_boxOf (h p hp))

theorem leafViolations_eq_zero {B : BoundingBox} {M : List Primitive}
    (h : ∀ p ∈ M, p.getBoundingBox.isSubset B = true) : leafViolations B M = 0 := by
  induction M with
  | nil => rfl
  | cons q M ih =>
    simp only [leafViolations, h q (List.mem_cons_self q M), Bool.not_true]
    rw [ih (fun p hp => h p (List.mem_cons_of_mem q hp))]
    rfl

theorem leafViolations_nonneg (B : BoundingBox) (M : List Primitive) :
    0 ≤ leafViolations B M := by
  induction M with
  | nil => exact le_refl 0
  | cons q M ih =>
    simp only [leafViolations]
    split <;> omega

theorem leafViolations_zero_mem {B : BoundingBox} {M : List Primitive}
    (h : leafViolations B M = 0) : ∀ p ∈ M, p.getBoundingBox.isSubset B = true := by
  induction M with
  | nil => intro p hp; cases hp
  | cons q M ih =>
    have hnn := leafViolations_nonneg B M
    simp only [leafViolations] at h
    intro p hp
    rcases List.mem_cons.mp hp with e | e
    · subst e
      cases hsub : p.getBoundingBox.isSubset B
      · rw [hsub] at h
        simp at h
        omega
      · rfl
    · apply ih _ p e
      split at h <;> omega

/-! ## Trees that `BuildHelper` returns -/

theorem Builds.bbox {b : BVHBuilder} {M M1 : List Primitive} {depth : Int} {t : BVH}
    (h : Builds b M depth t M1) : t.getBoundingBox = boxOf M := by
  cases h <;> rfl

theorem Builds.primitiveCount {b : BVHBuilder} {M M1 : List Primitive} {depth : Int}
    {t : BVH} (h : Builds b M depth t M1) : t.primitiveCount = some M.length := by
  induction h with
  | forced M depth hM => rfl
  | declined A M C M1 depth hM hb hp => simp only [BVH.primitiveCount, hp.length_eq]
  | split A M C L R L1 R1 depth child1 child2 hM hb hL hR hp h1 h2 ih1 ih2 =>
    simp only [BVH.primitiveCount, ih1, ih2, ← hp.length_eq, List.length_append]

theorem Builds.checkRepr {b : BVHBuilder} {M M1 : List Primitive} {depth : Int}
    {t : BVH} (h : Builds b M depth t M1) : t.checkRepr = some 0 := by
  induction h with
  | forced M depth hM =>
    simp only [BVH.checkRepr, leafViolations_eq_zero (fun p hp => mem_boxOf hp)]
  | declined A M C M1 depth hM hb hp =>
    simp only [BVH.checkRepr,
      leafViolations_eq_zero (fun p hp1 => mem_boxOf (hp.subset hp1))]
  | split A M C L R L1 R1 depth child1 child2 hM hb hL hR hp h1 h2 ih1 ih2 =>
    have s1 : child1.getBoundingBox.isSubset (boxOf M) = true := by
      rw [h1.bbox]
      exact boxOf_mono (fun p hp1 => hp.subset (List.mem_append_left R hp1))
    have s2 : child2.getBoundingBox.isSubset (boxOf M) = true := by
      rw [h2.bbox]
      exact boxOf_mono (fun p hp1 => hp.subset (List.mem_append_right L hp1))
    simp [BVH.checkRepr, ih1, ih2, s1, s2]

theorem Builds.leafPrimitives {b : BVHBuilder} {M M1 : List Primitive} {depth : Int}
    {t : BVH} (h : Builds b M depth t M1) : t.leafPrimitives = M1 := by
  induction h with
  | forced M depth hM => simp [BVH.leafPrimitives]
  | declined A M C M1 depth hM hb hp => simp [BVH.leafPrimitives]
  | split A M C L R L1 R1 depth child1 child2 hM hb hL hR hp h1 h2 ih1 ih2 =>
    simp [BVH.leafPrimitives, ih1, ih2]

theorem Builds.exclusive {b : BVHBuilder} {M M1 : List Primitive} {depth : Int}
    {t : BVH} (h : Builds b M depth t M1) : ∀ n ∈ t.nodes, n.ExclusiveNode := by
  induction h with
  | forced M depth hM =>
    intro n hn
    simp only [BVH.nodes, List.append_nil, List.mem_singleton] at hn
    subst hn
    simp [BVH.ExclusiveNode, BVH.getChild1, BVH.getChild2]
  | declined A M C M1 depth hM hb hp =>
    intro n hn
    simp only [BVH.nodes, List.append_nil, List.mem_singleton] at hn
    subst hn
    simp [BVH.ExclusiveNode, BVH.getChild1, BVH.getChild2]
  | split A M C L R L1 R1 depth child1 child2 hM hb hL hR hp h1 h2 ih1 ih2 =>
    intro n hn
    simp only [BVH.nodes, List.mem_cons, List.mem_append] at hn
    rcases hn with hn | hn | hn
    · subst hn
      simp [BVH.ExclusiveNode, BVH.getChild1, BVH.getChild2, BVH.getPrimitives]
    · exact ih1 n hn
    · exact ih2 n hn

/-! ## Ray traversal -/

theorem castLeaf_eq_linearScan {Ray Hit : Type} (intersect : Primitive → Ray → Hit → Bool × Hit) (ray : Ray) :
    ∀ (ps : List Primitive) (ans : Bool) (hit : Hit),
      castLeaf intersect ray ps ans hit
        = ((linearScan intersect ray ps hit).1 || ans, (linearScan intersect ray ps hit).2) := by
  intro ps
  induction ps with
  | nil => intro ans hit; simp [castLeaf, linearScan]
  | cons p ps ih =>
    intro ans hit
    simp only [castLeaf, linearScan, ih]
    cases (intersect p ray hit).1 <;> cases ans <;> simp

theorem linearScan_append {Ray Hit : Type} (intersect : Primitive → Ray → Hit → Bool × Hit) (ray : Ray) :
    ∀ (l1 l2 : List Primitive) (hit : Hit),
      linearScan intersect ray (l1 ++ l2) hit
        = ((linearScan intersect ray l1 hit).1 ||
              (linearScan intersect ray l2 (linearScan intersect ray l1 hit).2).1,
            (linearScan intersect ray l2 (linearScan intersect ray l1 hit).2).2) := by
  intro l1
  induction l1 with
  | nil => intro l2 hit; simp [linearScan]
  | cons p l1 ih =>
    intro l2 hit
    simp only [List.cons_append, linearScan, List.append_eq, ih, Bool.or_assoc]

theorem linearScan_miss {Ray Hit : Type} (intersect : Primitive → Ray → Hit → Bool × Hit) (ray : Ray) :
    ∀ (ps : List Primitive), (∀ p ∈ ps, ∀ hit, intersect p ray hit = (false, hit)) →
      ∀ hit, linearScan intersect ray ps hit = (false, hit) := by
  intro ps
  induction ps with
  | nil => intro _ hit; rfl
  | cons p ps ih =>
    intro h hit
    simp only [linearScan, h p (List.mem_cons_self p ps) hit,
      ih (fun q hq => h q (List.mem_cons_of_mem p hq)) hit, Bool.or_self]

theorem checkRepr_nonneg : ∀ (t : BVH) (e : Int), t.checkRepr = some e → 0 ≤ e
  | .mk bbox _ none none ps, e, h => by
    simp only [BVH.checkRepr, Option.some.injEq] at h
    rw [← h]
    exact leafViolations_nonneg bbox ps
  | .mk bbox _ (some c1) (some c2) ps, e, h => by
    simp only [BVH.checkRepr] at h
    cases h1 : c1.checkRepr with
    | none => simp [h1] at h
    | some e1 =>
      cases h2 : c2.checkRepr with
      | none => simp [h1, h2] at h
      | some e2 =>
        have n1 := checkRepr_nonneg c1 e1 h1
        have n2 := checkRepr_nonneg c2 e2 h2
        simp only [h1, h2, Option.some.injEq] at h
        rw [← h]
        split <;> split <;> split <;> omega
  | .mk _ _ none (some _) _, e, h => by simp [BVH.checkRepr] at h
  | .mk _ _ (some _) none _, e, h => by simp [BVH.checkRepr] at h

theorem checkRepr_node {bbox : BoundingBox} {depth : Int} {c1 c2 : BVH}
    {ps : List Primitive}
    (h : (BVH.mk bbox depth (some c1) (some c2) ps).checkRepr = some 0) :
    ps = [] ∧ c1.getBoundingBox.isSubset bbox = true ∧
      c2.getBoundingBox.isSubset bbox = true ∧
      c1.checkRepr = some 0 ∧ c2.checkRepr = some 0 := by
  simp only [BVH.checkRepr] at h
  cases h1 : c1.checkRepr with
  | none => simp [h1] at h
  | some e1 =>
    cases h2 : c2.checkRepr with
    | none => simp [h1, h2] at h
    | some e2 =>
      have n1 := checkRepr_nonneg c1 e1 h1
      have n2 := checkRepr_nonneg c2 e2 h2
      simp only [h1, h2, Option.some.injEq] at h
      cases hp : ps.isEmpty <;> cases hs1 : c1.getBoundingBox.isSubset bbox <;>
        cases hs2 : c2.getBoundingBox.isSubset bbox <;>
        simp only [hp, hs1, hs2, Bool.not_true, Bool.not_false, if_true, if_false] at h <;>
        try omega
      have e1z : e1 = 0 := by omega
      have e2z : e2 = 0 := by omega
      subst e1z
      subst e2z
      exact ⟨List.isEmpty_iff.mp hp, rfl, rfl, rfl, rfl⟩

theorem checkRepr_contains : ∀ (t : BVH), t.checkRepr = some 0 →
    ∀ p ∈ t.leafPrimitives, p.getBoundingBox.isSubset t.getBoundingBox = true
  | .mk bbox _ none none ps, h => by
    simp only [BVH.checkRepr, Option.some.injEq] at h
    simpa [BVH.leafPrimitives, BVH.getBoundingBox] using leafViolations_zero_mem h
  | .mk bbox _ (some c1) (some c2) ps, h => by
    obtain ⟨hps, s1, s2, r1, r2⟩ := checkRepr_node h
    intro p hp
    simp only [BVH.leafPrimitives, hps, List.nil_append, List.mem_append] at hp
    rcases hp with hp | hp
    · exact isSubset_trans (checkRepr_contains c1 r1 p hp) s1
    · exact isSubset_trans (checkRepr_contains c2 r2 p hp) s2
  | .mk _ _ none (some _) _, h => by simp [BVH.checkRepr] at h
  | .mk _ _ (some _) none _, h => by simp [BVH.checkRepr] at h

theorem CastRay_eq_linearScan {Ray Hit : Type} (boxIntersect : BoundingBox → Ray → Hit → Bool × Hit)
    (intersect : Primitive → Ray → Hit → Bool × Hit) (fresh : Hit) (ray : Ray)
    (hmiss : ∀ (p : Primitive) (B : BoundingBox), p.getBoundingBox.isSubset B = true →
      (boxIntersect B ray fresh).1 = false → ∀ hit, intersect p ray hit = (false, hit)) :
    ∀ (t : BVH), t.checkRepr = some 0 → ∀ hit : Hit,
      t.CastRay boxIntersect intersect fresh ray hit
        = some (linearScan intersect ray t.leafPrimitives hit)
  | .mk bbox depth none none ps, h, hit => by
    have hc := checkRepr_contains _ h
    simp only [BVH.getBoundingBox] at hc
    unfold BVH.CastRay
    cases hb : (boxIntersect bbox ray fresh).1
    · simp only [hb, Bool.not_false, if_true]
      rw [linearScan_miss intersect ray _ (fun p hp => hmiss p bbox (hc p hp) hb)]
    · simp [hb, castLeaf_eq_linearScan, BVH.leafPrimitives]
  | .mk bbox depth (some c1) (some c2) ps, h, hit => by
    have hc := checkRepr_contains _ h
    simp only [BVH.getBoundingBox] at hc
    obtain ⟨hps, s1, s2, r1, r2⟩ := checkRepr_node h
    unfold BVH.CastRay
    cases hb : (boxIntersect bbox ray fresh).1
    · simp only [hb, Bool.not_false, if_true]
      rw [linearScan_miss intersect ray _ (fun p hp => hmiss p bbox (hc p hp) hb)]
    · simp only [hb, Bool.not_true, Bool.false_eq_true, if_false]
      rw [CastRay_eq_linearScan boxIntersect intersect fresh ray hmiss c1 r1 hit]
      simp only
      rw [CastRay_eq_linearScan boxIntersect intersect fresh ray hmiss c2 r2]
      simp only [BVH.leafPrimitives, hps, List.nil_append, linearScan_append]
      cases (linearScan intersect ray c1.leafPrimitives hit).1 <;>
        cases (linearScan intersect ray c2.leafPrimitives
          (linearScan intersect ray c1.leafPrimitives hit).2).1 <;> simp
  | .mk _ _ none (some _) _, h, _ => by simp [BVH.checkRepr] at h
  | .mk _ _ (some _) none _, h, _ => by simp [BVH.checkRepr] at h

theorem linearScan_dist {Ray Hit D : Type} [LinearOrder D] (intersect : Primitive → Ray → Hit → Bool × Hit) (dist : Hit → D)
    (hitDist : Primitive → Ray → Option D) (hn : NearestHit intersect dist hitDist)
    (ray : Ray) :
    ∀ (ps : List Primitive) (hit : Hit),
      dist (linearScan intersect ray ps hit).2
        = (ps.filterMap (fun p => hitDist p ray)).foldl min (dist hit) := by
  intro ps
  induction ps with
  | nil => intro hit; rfl
  | cons p ps ih =>
    intro hit
    simp only [linearScan, ih]
    obtain ⟨hlt, hge⟩ := hn p ray hit
    cases hd : hitDist p ray with
    | none =>
      rw [hge (by intro d h; rw [hd] at h; cases h)]
      simp [List.filterMap_cons, hd]
    | some d =>
      by_cases hcmp : d < dist hit
      · rw [(hlt d hd hcmp).2]
        simp [List.filterMap_cons, hd, min_eq_right (le_of_lt hcmp)]
      · rw [hge (by intro d1 h; rw [hd] at h; cases h; exact hcmp)]
        simp [List.filterMap_cons, hd, min_eq_left (not_lt.mp hcmp)]

theorem linearScan_true_iff {Ray Hit D : Type} [LinearOrder D] (intersect : Primitive → Ray → Hit → Bool × Hit)
    (dist : Hit → D) (hitDist : Primitive → Ray → Option D)
    (hn : NearestHit intersect dist hitDist) (ray : Ray) :
    ∀ (ps : List Primitive) (hit : Hit),
      (linearScan intersect ray ps hit).1 = true
        ↔ ∃ p ∈ ps, ∃ d, hitDist p ray = some d ∧ d < dist hit := by
  intro ps
  induction ps with
  | nil => intro hit; simp [linearScan]
  | cons p ps ih =>
    intro hit
    simp only [linearScan, Bool.or_eq_true, ih]
    obtain ⟨hlt, hge⟩ := hn p ray hit
    by_cases hex : ∃ d, hitDist p ray = some d ∧ d < dist hit
    · obtain ⟨d, hd, hcmp⟩ := hex
      constructor
      · intro _; exact ⟨p, List.mem_cons_self p ps, d, hd, hcmp⟩
      · intro _; exact Or.inl (hlt d hd hcmp).1
    · have hsame := hge (fun d hd hcmp => hex ⟨d, hd, hcmp⟩)
      rw [hsame]
      constructor
      · rintro (h | ⟨q, hq, d, hd, hcmp⟩)
        · cases h
        · exact ⟨q, List.mem_cons_of_mem p hq, d, hd, hcmp⟩
      · rintro ⟨q, hq, d, hd, hcmp⟩
        rcases List.mem_cons.mp hq with e | e
        · subst e; exact absurd ⟨d, hd, hcmp⟩ hex
        · exact Or.inr ⟨q, e, d, hd, hcmp⟩


/-! ## The builder from the root -/

theorem range_split (prims : List Primitive) (start end_ : Nat) (h1 : start ≤ end_)
    (h2 : end_ ≤ prims.length) :
    prims = prims.take start ++ slice prims start end_ ++ prims.drop end_ ∧
      (prims.take start).length = start ∧
      (prims.take start).length + (slice prims start end_).length = end_ := by
  have ht : (prims.take start).length = start := by
    rw [List.length_take]; omega
  have hs : (slice prims start end_).length = end_ - start := by
    unfold slice
    rw [List.length_take, List.length_drop]; omega
  refine ⟨?_, ht, by omega⟩
  unfold slice
  have hd : prims.drop end_ = (prims.drop start).drop (end_ - start) := by
    rw [List.drop_drop]
    congr 1
    omega
  rw [hd, List.append_assoc, List.take_append_drop, List.take_append_drop]

theorem BuildHelper_root (b : BVHBuilder) (hb : SplitContract b) (P : List Primitive)
    (fuel : Nat) (hfuel : P.length < fuel) :
    ∃ t P1, BuildHelper b fuel P 0 P.length 0 = some (t, P1) ∧ Builds b P 0 t P1 := by
  have h := BuildHelper_builds b hb fuel [] P [] 0 hfuel
  simpa using h

theorem BuildHelper_small (b : BVHBuilder) (P : List Primitive) (fuel : Nat)
    (hP : P.length ≤ 2) :
    BuildHelper b (fuel + 1) P 0 P.length 0
      = some (BVH.mk (make_bbox P 0 P.length) 0 none none P, P) := by
  have hu : ¬ usub P.length 0 > 2 := by
    simp only [usub, Nat.zero_le, if_true, Nat.sub_zero]; omega
  have hs : slice P 0 P.length = P := by simp [slice]
  simp only [BuildHelper, if_neg hu, if_true, hs]

/-- What each heuristic does on a non-empty range `M` lying between `A` and `C`. -/
theorem builderOf_mid (S : StdSort) (h : BVH_Heuristic) (A M C : List Primitive)
    (bbox : BoundingBox) (depth : Int) (hM : M ≠ []) :
    ∃ mid M1, builderOf S h (A ++ M ++ C) A.length (A.length + M.length) bbox depth
        = some (mid, A ++ M1 ++ C) ∧ M1.Perm M ∧
        (2 ≤ M.length → mid = -1 ∨ StrictSplit A.length M.length mid) := by
  cases h with
  | BVH_NaiveFlat => exact ⟨-1, M, rfl, List.Perm.refl M, fun _ => Or.inl rfl⟩
  | BVH_LongestAxis_Median =>
    by_cases h2 : 2 < M.length
    · exact ⟨_, _, Build_Longest_mid S A M C bbox depth h2,
        S.perm _ M (axisLess_strictWeak _), fun hn => Or.inr (median_strictSplit _ _ hn)⟩
    · exact ⟨-1, M, Build_Longest_small S A M C bbox depth (by omega), List.Perm.refl M,
        fun _ => Or.inl rfl⟩
  | BVH_AlternateAxis_Median =>
    exact ⟨_, _, Build_Alternate_mid S A M C bbox depth hM,
      S.perm _ M (axisLess_strictWeak _), fun hn => Or.inr (median_strictSplit _ _ hn)⟩
  | BVH_BestAxis_SurfaceArea =>
    by_cases h2 : 2 < M.length
    · obtain ⟨mid, M1, hc, hp, hs⟩ := Build_SurfaceArea_mid S A M C bbox depth h2
      exact ⟨mid, M1, hc, hp, fun _ => hs⟩
    · exact ⟨-1, M, Build_SurfaceArea_small S A M C bbox depth (by omega),
        List.Perm.refl M, fun _ => Or.inl rfl⟩

theorem checkRepr_nodes : ∀ (t : BVH), t.checkRepr = some 0 →
    ∀ n ∈ t.nodes, n.checkRepr = some 0
  | .mk bbox depth none none ps, h => by
    intro n hn
    simp only [BVH.nodes, List.append_nil, List.mem_singleton] at hn
    rw [hn]; exact h
  | .mk bbox depth (some c1) (some c2) ps, h => by
    obtain ⟨_, _, _, r1, r2⟩ := checkRepr_node h
    intro n hn
    simp only [BVH.nodes, List.mem_cons, List.mem_append] at hn
    rcases hn with hn | hn | hn
    · rw [hn]; exact h
    · exact checkRepr_nodes c1 r1 n hn
    · exact checkRepr_nodes c2 r2 n hn
  | .mk _ _ none (some _) _, h => by simp [BVH.checkRepr] at h
  | .mk _ _ (some _) none _, h => by simp [BVH.checkRepr] at h

theorem checkRepr_containedNode : ∀ (n : BVH), n.checkRepr = some 0 → n.ContainedNode
  | .mk bbox depth none none ps, h => by
    simp only [BVH.checkRepr, Option.some.injEq] at h
    refine ⟨fun _ => leafViolations_zero_mem h, ?_⟩
    intro c hc
    simp [BVH.getChild1, BVH.getChild2] at hc
  | .mk bbox depth (some c1) (some c2) ps, h => by
    obtain ⟨_, s1, s2, _, _⟩ := checkRepr_node h
    refine ⟨fun hl => by simp [BVH.isLeaf] at hl, ?_⟩
    intro c hc
    simp only [BVH.getChild1, BVH.getChild2, Option.some.injEq] at hc
    rcases hc with hc | hc
    · rw [← hc]; exact s1
    · rw [← hc]; exact s2
  | .mk _ _ none (some _) _, h => by simp [BVH.checkRepr] at h
  | .mk _ _ (some _) none _, h => by simp [BVH.checkRepr] at h

/-! ## The claims -/

/-- C1, count preservation: for each of the four heuristics and every primitive list
`P`, `BuildHelper(b, P, 0, |P|, 0)` returns a tree (given fuel above `|P|`), the array
keeps its length, and `primitiveCount` of the tree is `|P|`, which is what the
assertion `count == actual_count` of `Build` compares. -/
theorem BuildHelper_count_preservation (S : StdSort) (h : BVH_Heuristic) (P : List Primitive)
    (fuel : Nat) (hfuel : P.length < fuel) :
    ∃ t P1, BuildHelper (builderOf S h) fuel P 0 P.length 0 = some (t, P1) ∧
      P1.length = P.length ∧ t.primitiveCount = some P.length := by
  obtain ⟨t, P1, hrun, hB⟩ := BuildHelper_root _ (builderOf_contract S h) P fuel hfuel
  exact ⟨t, P1, hrun, hB.perm.length_eq, hB.primitiveCount⟩

/-- C1 at the cluster scene with the surface-area heuristic and fuel 5. -/
theorem BuildHelper_count_preservation_witness :
    clusterScene.length < 5 ∧
    ∃ t P1, BuildHelper (builderOf refSort BVH_Heuristic.BVH_BestAxis_SurfaceArea) 5
        clusterScene 0 clusterScene.length 0 = some (t, P1) ∧
      P1.length = clusterScene.length ∧ t.primitiveCount = some clusterScene.length :=
  ⟨by decide, BuildHelper_count_preservation refSort BVH_Heuristic.BVH_BestAxis_SurfaceArea
    clusterScene 5 (by decide)⟩

/-- C2, boxes are contained: for each of the four heuristics and every primitive list,
`checkRepr` on the built tree returns 0; at every node of the tree the box of each
primitive of a leaf lies inside the box of the leaf and the box of each child lies
inside the box of its parent. -/
theorem BuildHelper_containment (S : StdSort) (h : BVH_Heuristic) (P : List Primitive)
    (fuel : Nat) (hfuel : P.length < fuel) :
    ∃ t P1, BuildHelper (builderOf S h) fuel P 0 P.length 0 = some (t, P1) ∧
      t.checkRepr = some 0 ∧ ∀ n ∈ t.nodes, n.ContainedNode := by
  obtain ⟨t, P1, hrun, hB⟩ := BuildHelper_root _ (builderOf_contract S h) P fuel hfuel
  exact ⟨t, P1, hrun, hB.checkRepr,
    fun n hn => checkRepr_containedNode n (checkRepr_nodes t hB.checkRepr n hn)⟩

/-- C2 at the cluster scene with the longest-axis heuristic and fuel 5. -/
theorem BuildHelper_containment_witness :
    clusterScene.length < 5 ∧
    ∃ t P1, BuildHelper (builderOf refSort BVH_Heuristic.BVH_LongestAxis_Median) 5
        clusterScene 0 clusterScene.length 0 = some (t, P1) ∧
      t.checkRepr = some 0 ∧ ∀ n ∈ t.nodes, n.ContainedNode :=
  ⟨by decide, BuildHelper_containment refSort BVH_Heuristic.BVH_LongestAxis_Median
    clusterScene 5 (by decide)⟩

/-- C3, leaf/inner exclusivity: in the tree `BuildHelper` returns with any of the four
heuristics, every node has both children absent or both present, and every node with
a child has an empty primitive list. -/
theorem BuildHelper_exclusivity (S : StdSort) (h : BVH_Heuristic) (P : List Primitive)
    (fuel : Nat) (hfuel : P.length < fuel) :
    ∃ t P1, BuildHelper (builderOf S h) fuel P 0 P.length 0 = some (t, P1) ∧
      ∀ n ∈ t.nodes, n.ExclusiveNode := by
  obtain ⟨t, P1, hrun, hB⟩ := BuildHelper_root _ (builderOf_contract S h) P fuel hfuel
  exact ⟨t, P1, hrun, hB.exclusive⟩

/-- C3 at the cluster scene with the alternate-axis heuristic and fuel 5. -/
theorem BuildHelper_exclusivity_witness :
    clusterScene.length < 5 ∧
    ∃ t P1, BuildHelper (builderOf refSort BVH_Heuristic.BVH_AlternateAxis_Median) 5
        clusterScene 0 clusterScene.length 0 = some (t, P1) ∧
      ∀ n ∈ t.nodes, n.ExclusiveNode :=
  ⟨by decide, BuildHelper_exclusivity refSort BVH_Heuristic.BVH_AlternateAxis_Median
    clusterScene 5 (by decide)⟩

theorem zNearestHit : NearestHit zIntersect (fun hit : WithTop ℚ => hit) zHitDist := by
  intro p ray hit
  constructor
  · intro d hd hlt
    unfold zHitDist at hd
    by_cases hc : p.getBoundingBox.coversZ ray = true
    · rw [if_pos hc] at hd
      cases hd
      simp only [zIntersect, hc, hlt, and_self, if_true]
    · rw [if_neg hc] at hd
      cases hd
  · intro hno
    unfold zIntersect
    rw [if_neg]
    rintro ⟨hc, hlt⟩
    exact hno _ (by simp only [zHitDist, hc, if_true]) hlt

theorem coversZ_mono {a B : BoundingBox} {ray : ZRay} (ha : a.coversZ ray = true)
    (hs : a.isSubset B = true) : B.coversZ ray = true := by
  cases a <;> cases B <;>
    simp only [BoundingBox.coversZ, BoundingBox.isSubset, Bool.and_eq_true,
      decide_eq_true_eq] at * <;>
    try contradiction
  obtain ⟨⟨⟨a1, a2⟩, a3⟩, a4⟩ := ha
  obtain ⟨⟨⟨⟨⟨h1, h2⟩, _⟩, h4⟩, h5⟩, _⟩ := hs
  exact ⟨⟨⟨le_trans h1 a1, le_trans a2 h4⟩, le_trans h2 a3⟩, le_trans a4 h5⟩

theorem zBoxesCoverHits : BoxesCoverHits zBoxIntersect (⊤ : WithTop ℚ) zHitDist := by
  intro p ray B d hd hs
  unfold zHitDist at hd
  by_cases hc : p.getBoundingBox.coversZ ray = true
  · exact coversZ_mono hc hs
  · rw [if_neg hc] at hd
    cases hd

theorem stackTree_checkRepr : stackTree.checkRepr = some 0 := by
  simp [stackTree, BVH.checkRepr, leafViolations, BVH.getBoundingBox, unitCube,
    Primitive.getBoundingBox, BoundingBox.isSubset]
  norm_num

/-- C4, `CastRay` agrees with a linear scan: under nearest-hit semantics of
`Primitive::intersect` and boxes that every hitting ray meets, on a tree with zero
`checkRepr` violations `CastRay` returns what calling `intersect` on every primitive of
the subtree in sequence returns, flag and hit record; the recorded distance is the
minimum of the initial distance and the hit distances of the primitives, and the flag
is true exactly when some primitive is hit closer than the initial distance.  Every
built tree is such a tree, its primitives being the array in its final order. -/
theorem CastRay_agrees_with_linear_scan {Ray Hit D : Type} [LinearOrder D]
    (boxIntersect : BoundingBox → Ray → Hit → Bool × Hit)
    (intersect : Primitive → Ray → Hit → Bool × Hit) (fresh : Hit) (dist : Hit → D)
    (hitDist : Primitive → Ray → Option D)
    (hn : NearestHit intersect dist hitDist)
    (hb : BoxesCoverHits boxIntersect fresh hitDist)
    (t : BVH) (ht : t.checkRepr = some 0) (ray : Ray) (hit : Hit) :
    (∃ r, t.CastRay boxIntersect intersect fresh ray hit = some r ∧
      r = linearScan intersect ray t.leafPrimitives hit ∧
      dist r.2 = (t.leafPrimitives.filterMap (fun p => hitDist p ray)).foldl min (dist hit) ∧
      (r.1 = true ↔ ∃ p ∈ t.leafPrimitives, ∃ d, hitDist p ray = some d ∧ d < dist hit)) ∧
    (∀ (S : StdSort) (h : BVH_Heuristic) (P : List Primitive) (fuel : Nat),
      P.length < fuel →
      ∃ t1 P1, BuildHelper (builderOf S h) fuel P 0 P.length 0 = some (t1, P1) ∧
        t1.checkRepr = some 0 ∧ t1.leafPrimitives = P1 ∧
        t1.CastRay boxIntersect intersect fresh ray hit
          = some (linearScan intersect ray P1 hit)) := by
  have hmiss : ∀ (p : Primitive) (B : BoundingBox), p.getBoundingBox.isSubset B = true →
      (boxIntersect B ray fresh).1 = false → ∀ hit, intersect p ray hit = (false, hit) := by
    intro p B hs hm hit1
    apply (hn p ray hit1).2
    intro d hd _
    rw [hb p ray B d hd hs] at hm
    cases hm
  constructor
  · exact ⟨_, CastRay_eq_linearScan boxIntersect intersect fresh ray hmiss t ht hit, rfl,
      linearScan_dist intersect dist hitDist hn ray _ hit,
      linearScan_true_iff intersect dist hitDist hn ray _ hit⟩
  · intro S h P fuel hfuel
    obtain ⟨t1, P1, hrun, hB⟩ := BuildHelper_root _ (builderOf_contract S h) P fuel hfuel
    refine ⟨t1, P1, hrun, hB.checkRepr, hB.leafPrimitives, ?_⟩
    rw [CastRay_eq_linearScan boxIntersect intersect fresh ray hmiss t1 hB.checkRepr hit,
      hB.leafPrimitives]

/-- C4 at the tree `stackTree`, for rays parallel to the z axis and primitives that fill
their boxes. -/
theorem CastRay_agrees_with_linear_scan_witness :
    NearestHit zIntersect (fun hit : WithTop ℚ => hit) zHitDist ∧
    BoxesCoverHits zBoxIntersect (⊤ : WithTop ℚ) zHitDist ∧
    stackTree.checkRepr = some 0 ∧
    ((∃ r, stackTree.CastRay zBoxIntersect zIntersect ⊤ (ZRay.mk (1 / 2) (1 / 2)) ⊤ = some r ∧
      r = linearScan zIntersect (ZRay.mk (1 / 2) (1 / 2)) stackTree.leafPrimitives ⊤ ∧
      r.2 = (stackTree.leafPrimitives.filterMap
              (fun p => zHitDist p (ZRay.mk (1 / 2) (1 / 2)))).foldl min ⊤ ∧
      (r.1 = true ↔ ∃ p ∈ stackTree.leafPrimitives, ∃ d,
          zHitDist p (ZRay.mk (1 / 2) (1 / 2)) = some d ∧ d < ⊤)) ∧
    (∀ (S : StdSort) (h : BVH_Heuristic) (P : List Primitive) (fuel : Nat),
      P.length < fuel →
      ∃ t1 P1, BuildHelper (builderOf S h) fuel P 0 P.length 0 = some (t1, P1) ∧
        t1.checkRepr = some 0 ∧ t1.leafPrimitives = P1 ∧
        t1.CastRay zBoxIntersect zIntersect ⊤ (ZRay.mk (1 / 2) (1 / 2)) ⊤
          = some (linearScan zIntersect (ZRay.mk (1 / 2) (1 / 2)) P1 ⊤))) :=
  ⟨zNearestHit, zBoxesCoverHits, stackTree_checkRepr,
    CastRay_agrees_with_linear_scan zBoxIntersect zIntersect ⊤ (fun hit => hit) zHitDist
      zNearestHit zBoxesCoverHits stackTree stackTree_checkRepr (ZRay.mk (1 / 2) (1 / 2)) ⊤⟩

theorem builderOf_range (S : StdSort) (h : BVH_Heuristic) (primitives : List Primitive)
    (start end_ : Nat) (bbox : BoundingBox) (depth : Int) (hlt : start < end_)
    (hle : end_ ≤ primitives.length) :
    ∃ mid M1, builderOf S h primitives start end_ bbox depth
        = some (mid, primitives.take start ++ M1 ++ primitives.drop end_) ∧
      M1.Perm (slice primitives start end_) ∧
      (start + 2 ≤ end_ → mid = -1 ∨ ((start : Int) < mid ∧ mid < (end_ : Int))) := by
  obtain ⟨hsplit, hA, hAM⟩ := range_split primitives start end_ (le_of_lt hlt) hle
  have hne : slice primitives start end_ ≠ [] := by
    intro h0
    rw [h0] at hAM
    simp only [List.length_nil] at hAM
    omega
  obtain ⟨mid, M1, hcall, hp, hs⟩ := builderOf_mid S h (primitives.take start)
    (slice primitives start end_) (primitives.drop end_) bbox depth hne
  rw [hAM, hA, ← hsplit] at hcall
  refine ⟨mid, M1, hcall, hp, ?_⟩
  intro h2
  have hlen : 2 ≤ (slice primitives start end_).length := by omega
  rcases hs hlen with h1 | h1
  · exact Or.inl h1
  · unfold StrictSplit at h1
    rw [hA] at h1
    refine Or.inr ⟨h1.1, ?_⟩
    have : start + (slice primitives start end_).length = end_ := by omega
    rw [this] at h1
    exact h1.2

/-- C5 as stated fails: on the one-element range `[0, 1)` the heuristic
`Build_Alternate` returns the index `0`, which is neither `-1` nor strictly between
`0` and `1`. -/
theorem heuristic_return_contract_counterexample :
    (0 < 1 ∧ 1 ≤ [unitCube 0 0 0 0].length) ∧
    ¬ ∃ mid prims1,
      builderOf refSort BVH_Heuristic.BVH_AlternateAxis_Median [unitCube 0 0 0 0] 0 1
          (make_bbox [unitCube 0 0 0 0] 0 1) 0 = some (mid, prims1) ∧
        (mid = -1 ∨ ((0 : Int) < mid ∧ mid < 1)) := by
  refine ⟨⟨by decide, by decide⟩, ?_⟩
  rintro ⟨mid, prims1, hcall, hmid⟩
  have hrun : Build_Alternate refSort ([] ++ [unitCube 0 0 0 0] ++ []) 0 (0 + 1)
      (make_bbox [unitCube 0 0 0 0] 0 1) 0 = _ :=
    Build_Alternate_mid refSort [] [unitCube 0 0 0 0] [] _ 0 (by simp)
  simp only [List.nil_append, List.append_nil, Nat.zero_add] at hrun
  simp only [builderOf] at hcall
  rw [hrun] at hcall
  simp only [Option.some.injEq, Prod.mk.injEq] at hcall
  have hm : mid = 0 := by rw [← hcall.1]; rfl
  omega

/-- C5, amended to ranges of at least two primitives: for each of the four heuristics,
every primitive array and every range `[start, end)` inside it with `end - start ≥ 2`,
the call returns, and the value it returns is `-1` or an index `mid` with
`start < mid < end`. -/
theorem heuristic_return_contract (S : StdSort) (h : BVH_Heuristic)
    (primitives : List Primitive) (start end_ : Nat) (bbox : BoundingBox) (depth : Int)
    (hsize : start + 2 ≤ end_) (hle : end_ ≤ primitives.length) :
    ∃ mid prims1, builderOf S h primitives start end_ bbox depth = some (mid, prims1) ∧
      (mid = -1 ∨ ((start : Int) < mid ∧ mid < (end_ : Int))) := by
  obtain ⟨mid, M1, hcall, _, hs⟩ :=
    builderOf_range S h primitives start end_ bbox depth (by omega) hle
  exact ⟨mid, _, hcall, hs hsize⟩

/-- C5 (amended) at the cluster scene, range `[0, 4)`, with the surface-area heuristic. -/
theorem heuristic_return_contract_witness :
    0 + 2 ≤ 4 ∧ 4 ≤ clusterScene.length ∧
    ∃ mid prims1, builderOf refSort BVH_Heuristic.BVH_BestAxis_SurfaceArea clusterScene 0 4
        (make_bbox clusterScene 0 4) 0 = some (mid, prims1) ∧
      (mid = -1 ∨ (((0 : Nat) : Int) < mid ∧ mid < ((4 : Nat) : Int))) :=
  ⟨by decide, by decide,
    heuristic_return_contract refSort BVH_Heuristic.BVH_BestAxis_SurfaceArea clusterScene
      0 4 (make_bbox clusterScene 0 4) 0 (by decide) (by decide)⟩

/-- C6, heuristic frame: for each of the four heuristics and every non-empty range
`[start, end)` inside the array, the call returns an array of the same length in which
every element at an index outside `[start, end)` is unchanged and the elements inside
`[start, end)` are a permutation of those that were there before. -/
theorem heuristic_frame (S : StdSort) (h : BVH_Heuristic)
    (primitives : List Primitive) (start end_ : Nat) (bbox : BoundingBox) (depth : Int)
    (hlt : start < end_) (hle : end_ ≤ primitives.length) :
    ∃ mid prims1, builderOf S h primitives start end_ bbox depth = some (mid, prims1) ∧
      prims1.length = primitives.length ∧
      (∀ i, i < start ∨ end_ ≤ i → prims1[i]? = primitives[i]?) ∧
      (slice prims1 start end_).Perm (slice primitives start end_) := by
  obtain ⟨mid, M1, hcall, hp, _⟩ :=
    builderOf_range S h primitives start end_ bbox depth hlt hle
  obtain ⟨hsplit, hA, hAM⟩ := range_split primitives start end_ (le_of_lt hlt) hle
  have hl := hp.length_eq
  refine ⟨mid, _, hcall, ?_, ?_, ?_⟩
  · conv_rhs => rw [hsplit]
    simp only [List.length_append, hl]
  · intro i hi
    conv_rhs => rw [hsplit]
    rcases hi with hi | hi
    · rw [List.append_assoc, List.append_assoc,
        List.getElem?_append_left (by omega), List.getElem?_append_left (by omega)]
    · rw [List.getElem?_append_right (by simp only [List.length_append]; omega),
        List.getElem?_append_right (by simp only [List.length_append]; omega)]
      simp only [List.length_append, hl]
  · have hs := slice_mid (primitives.take start) M1 (primitives.drop end_)
    rw [hl, hAM, hA] at hs
    rw [hs]
    exact hp

/-- C6 at the cluster scene, range `[1, 4)`, with the longest-axis heuristic. -/
theorem heuristic_frame_witness :
    1 < 4 ∧ 4 ≤ clusterScene.length ∧
    ∃ mid prims1, builderOf refSort BVH_Heuristic.BVH_LongestAxis_Median clusterScene 1 4
        (make_bbox clusterScene 1 4) 0 = some (mid, prims1) ∧
      prims1.length = clusterScene.length ∧
      (∀ i, i < 1 ∨ 4 ≤ i → prims1[i]? = clusterScene[i]?) ∧
      (slice prims1 1 4).Perm (slice clusterScene 1 4) :=
  ⟨by decide, by decide,
    heuristic_frame refSort BVH_Heuristic.BVH_LongestAxis_Median clusterScene
      1 4 (make_bbox clusterScene 1 4) 0 (by decide) (by decide)⟩

/-- C7, degenerate input: with 0, 1 or 2 primitives `BuildHelper` returns, whatever
the builder (so for each of the four heuristics, and without calling it), a root that
is a leaf holding exactly the given primitives in their order, with `primitiveCount`
equal to their number (0 for the empty list) and height 0, and leaves the array as it
is. -/
theorem BuildHelper_degenerate_input (b : BVHBuilder) (P : List Primitive) (fuel : Nat)
    (hP : P.length ≤ 2) (hfuel : 0 < fuel) :
    ∃ t, BuildHelper b fuel P 0 P.length 0 = some (t, P) ∧
      t = BVH.mk (make_bbox P 0 P.length) 0 none none P ∧
      t.isLeaf = some true ∧ t.getPrimitives = P ∧
      t.primitiveCount = some P.length ∧ t.computeHeight = some 0 := by
  obtain ⟨n, rfl⟩ : ∃ n, fuel = n + 1 := ⟨fuel - 1, by omega⟩
  exact ⟨_, BuildHelper_small b P n hP, rfl, rfl, rfl, rfl, rfl⟩

/-- C7 at a list of two unit cubes with the surface-area heuristic. -/
theorem BuildHelper_degenerate_input_witness :
    [unitCube 0 0 0 0, unitCube 1 5 5 5].length ≤ 2 ∧ 0 < 1 ∧
    ∃ t, BuildHelper (builderOf refSort BVH_Heuristic.BVH_BestAxis_SurfaceArea) 1
        [unitCube 0 0 0 0, unitCube 1 5 5 5] 0
        [unitCube 0 0 0 0, unitCube 1 5 5 5].length 0
          = some (t, [unitCube 0 0 0 0, unitCube 1 5 5 5]) ∧
      t = BVH.mk (make_bbox [unitCube 0 0 0 0, unitCube 1 5 5 5] 0
            [unitCube 0 0 0 0, unitCube 1 5 5 5].length) 0 none none
            [unitCube 0 0 0 0, unitCube 1 5 5 5] ∧
      t.isLeaf = some true ∧ t.getPrimitives = [unitCube 0 0 0 0, unitCube 1 5 5 5] ∧
      t.primitiveCount = some [unitCube 0 0 0 0, unitCube 1 5 5 5].length ∧
      t.computeHeight = some 0 :=
  ⟨by decide, by decide,
    BuildHelper_degenerate_input (builderOf refSort BVH_Heuristic.BVH_BestAxis_SurfaceArea)
      [unitCube 0 0 0 0, unitCube 1 5 5 5] 1 (by decide) (by decide)⟩

/-- C8, naive heuristic: for every primitive list `P` the tree built with `Build_Naive`
is a single leaf whose primitive list is `P` in its original order, its height is 0,
and the array is returned as it was. -/
theorem BuildHelper_naive_single_leaf (S : StdSort) (P : List Primitive) (fuel : Nat)
    (hfuel : 0 < fuel) :
    ∃ t, BuildHelper (builderOf S BVH_Heuristic.BVH_NaiveFlat) fuel P 0 P.length 0
        = some (t, P) ∧
      t = BVH.mk (make_bbox P 0 P.length) 0 none none P ∧
      t.isLeaf = some true ∧ t.getPrimitives = P ∧ t.computeHeight = some 0 := by
  obtain ⟨n, rfl⟩ : ∃ n, fuel = n + 1 := ⟨fuel - 1, by omega⟩
  have hs : slice P 0 P.length = P := by simp [slice]
  refine ⟨_, ?_, rfl, rfl, rfl, rfl⟩
  simp only [BuildHelper, builderOf, Build_Naive, ite_self, if_true, hs]

/-- C8 at the cluster scene. -/
theorem BuildHelper_naive_single_leaf_witness :
    0 < 1 ∧
    ∃ t, BuildHelper (builderOf refSort BVH_Heuristic.BVH_NaiveFlat) 1 clusterScene 0
        clusterScene.length 0 = some (t, clusterScene) ∧
      t = BVH.mk (make_bbox clusterScene 0 clusterScene.length) 0 none none clusterScene ∧
      t.isLeaf = some true ∧ t.getPrimitives = clusterScene ∧ t.computeHeight = some 0 :=
  ⟨by decide, BuildHelper_naive_single_leaf refSort clusterScene 1 (by decide)⟩

theorem CastRay_probe_irrelevant {Ray Hit : Type}
    (boxIntersect boxIntersect1 : BoundingBox → Ray → Hit → Bool × Hit)
    (intersect : Primitive → Ray → Hit → Bool × Hit) (fresh : Hit) (ray : Ray)
    (hsame : ∀ B : BoundingBox, (boxIntersect1 B ray fresh).1 = (boxIntersect B ray fresh).1) :
    ∀ (t : BVH) (hit : Hit),
      t.CastRay boxIntersect1 intersect fresh ray hit
        = t.CastRay boxIntersect intersect fresh ray hit
  | .mk bbox depth none none ps, hit => by
    simp only [BVH.CastRay, hsame]
  | .mk bbox depth (some c1) (some c2) ps, hit => by
    simp only [BVH.CastRay, hsame,
      CastRay_probe_irrelevant boxIntersect boxIntersect1 intersect fresh ray hsame c1,
      CastRay_probe_irrelevant boxIntersect boxIntersect1 intersect fresh ray hsame c2]
  | .mk _ _ none (some _) _, hit => by simp only [BVH.CastRay, hsame]
  | .mk _ _ (some _) none _, hit => by simp only [BVH.CastRay, hsame]

theorem CastRay_miss {Ray Hit : Type}
    (boxIntersect : BoundingBox → Ray → Hit → Bool × Hit)
    (intersect : Primitive → Ray → Hit → Bool × Hit) (fresh : Hit) (ray : Ray) :
    ∀ (t : BVH) (hit : Hit), (boxIntersect t.getBoundingBox ray fresh).1 = false →
      t.CastRay boxIntersect intersect fresh ray hit = some (false, hit)
  | .mk bbox depth c1 c2 ps, hit, h => by
    simp only [BVH.getBoundingBox] at h
    unfold BVH.CastRay
    simp only [h, Bool.not_false, if_true]

/-- C9, pruning leaves the hit record of the caller alone: for every node, ray and hit
record, if the ray misses the box of the node then `CastRay` returns false together
with the very hit record it was given; and in every case the probe of the box runs on
a fresh record whose contents are dropped, so that any two box tests that agree on the
flag they return for a fresh record give the same result of `CastRay`, whatever they
write into the record they are handed. -/
theorem CastRay_prune_keeps_hit {Ray Hit : Type}
    (boxIntersect : BoundingBox → Ray → Hit → Bool × Hit)
    (intersect : Primitive → Ray → Hit → Bool × Hit) (fresh : Hit)
    (t : BVH) (ray : Ray) (hit : Hit) :
    ((boxIntersect t.getBoundingBox ray fresh).1 = false →
      t.CastRay boxIntersect intersect fresh ray hit = some (false, hit)) ∧
    (∀ boxIntersect1 : BoundingBox → Ray → Hit → Bool × Hit,
      (∀ B : BoundingBox, (boxIntersect1 B ray fresh).1 = (boxIntersect B ray fresh).1) →
      t.CastRay boxIntersect1 intersect fresh ray hit
        = t.CastRay boxIntersect intersect fresh ray hit) :=
  ⟨CastRay_miss boxIntersect intersect fresh ray t hit,
    fun b1 hsame => CastRay_probe_irrelevant boxIntersect b1 intersect fresh ray hsame t hit⟩

/-- C9 at the tree `stackTree` and a ray that passes beside its box. -/
theorem CastRay_prune_keeps_hit_witness :
    (zBoxIntersect stackTree.getBoundingBox (ZRay.mk 2 2) ⊤).1 = false ∧
    stackTree.CastRay zBoxIntersect zIntersect ⊤ (ZRay.mk 2 2) 3 = some (false, 3) :=
  have hmiss : (zBoxIntersect stackTree.getBoundingBox (ZRay.mk 2 2) ⊤).1 = false := by
    simp [zBoxIntersect, stackTree, BVH.getBoundingBox, BoundingBox.coversZ]
  ⟨hmiss, (CastRay_prune_keeps_hit zBoxIntersect zIntersect ⊤ stackTree (ZRay.mk 2 2) 3).1
    hmiss⟩

theorem pairwise_rel_or {R : Primitive → Primitive → Prop} :
    ∀ (l : List Primitive), l.Pairwise R → ∀ a ∈ l, ∀ b ∈ l, a ≠ b → R a b ∨ R b a := by
  intro l
  induction l with
  | nil => intro _ a ha; cases ha
  | cons x l ih =>
    intro hp a ha b hb hab
    rw [List.pairwise_cons] at hp
    rcases List.mem_cons.mp ha with ea | ea <;> rcases List.mem_cons.mp hb with eb | eb
    · exact absurd (ea.trans eb.symm) hab
    · subst ea; exact Or.inl (hp.1 b eb)
    · subst eb; exact Or.inr (hp.1 a ea)
    · exact ih hp.2 a ea b eb hab

/-- A range already in strictly increasing order of centre coordinate is left as it is
by every `std::sort`. -/
theorem run_of_strictly_sorted (S : StdSort) (axis : Int) (l : List Primitive)
    (h : l.Pairwise (fun a b => axisLess axis a b = true)) :
    S.run (axisLess axis) l = l := by
  have hsw := axisLess_strictWeak axis
  have hperm := S.perm (axisLess axis) l hsw
  refine @List.Perm.eq_of_sorted Primitive (fun a b => axisLess axis b a = false) _ _ ?_
    (S.sorted (axisLess axis) l hsw) (h.imp (fun hab => hsw.asymm _ _ hab)) hperm
  intro a b ha hb hab hba
  by_contra hne
  rcases pairwise_rel_or l h a (hperm.subset ha) b hb hne with hr | hr
  · rw [hr] at hba; cases hba
  · rw [hr] at hab; cases hab

theorem clusterScene_sorted (axis : Int) :
    clusterScene.Pairwise (fun a b => axisLess axis a b = true) := by
  simp only [clusterScene, unitCube, axisLess, Primitive.getBoundingBox,
    BoundingBox.getCenter, BoundingBox.getMin, BoundingBox.getMax, Vec3f.get,
    List.pairwise_cons, List.mem_cons, List.mem_singleton, decide_eq_true_eq,
    forall_eq_or_imp, forall_eq, List.not_mem_nil, List.Pairwise.nil]
  split <;> [skip; split] <;> norm_num

theorem sort_clusterScene (S : StdSort) (axis : Int) :
    sort_by_axis S clusterScene 0 4 axis = some clusterScene := by
  have h := sort_by_axis_mid S [] clusterScene [] axis (by simp [clusterScene])
  rw [run_of_strictly_sorted S axis clusterScene (clusterScene_sorted axis)] at h
  simpa [clusterScene] using h

theorem sahAxis_clusterScene (S : StdSort) (bbox : BoundingBox) (axis : Int)
    (best : SahBest) :
    sahAxis S 0 4 bbox axis clusterScene best
      = some (clusterScene,
          sahSweep 0 4 bbox.SurfaceArea axis (right_bboxes_of clusterScene)
            [unitCube 1 1 1 1, unitCube 2 2 2 2, unitCube 3 1000 3 3] 1
            (BoundingBox.empty.Extend (unitCube 0 0 0 0).getBoundingBox) best) := by
  simp only [sahAxis, sort_clusterScene]
  simp [slice, clusterScene]

theorem clusterScene_bbox :
    make_bbox clusterScene 0 4 = BoundingBox.box ⟨0, 0, 0⟩ ⟨1001, 4, 4⟩ := by
  simp [make_bbox, slice, clusterScene, unitCube, Primitive.getBoundingBox,
    BoundingBox.Extend]
  norm_num

theorem clusterScene_right_bboxes :
    right_bboxes_of clusterScene
      = [BoundingBox.box ⟨0, 0, 0⟩ ⟨1001, 4, 4⟩, BoundingBox.box ⟨1, 1, 1⟩ ⟨1001, 4, 4⟩,
         BoundingBox.box ⟨2, 2, 2⟩ ⟨1001, 4, 4⟩, BoundingBox.box ⟨1000, 3, 3⟩ ⟨1001, 4, 4⟩] := by
  simp [right_bboxes_of, clusterScene, unitCube, Primitive.getBoundingBox,
    BoundingBox.Extend]
  norm_num

theorem clusterScene_sweep_first (axis : Int) :
    sahSweep 0 4 ((16048 : ℚ)) axis (right_bboxes_of clusterScene)
        [unitCube 1 1 1 1, unitCube 2 2 2 2, unitCube 3 1000 3 3] 1
        (BoundingBox.empty.Extend (unitCube 0 0 0 0).getBoundingBox)
        { best_score := FScore.posInf, best_axis := -1, best_split := -1 }
      = { best_score := FScore.finite (16108 / 16048), best_axis := axis, best_split := 2 } := by
  rw [clusterScene_right_bboxes]
  simp [sahSweep, unitCube, Primitive.getBoundingBox, BoundingBox.Extend,
    BoundingBox.SurfaceArea, fdiv, FScore.lt]
  norm_num

theorem clusterScene_sweep_later (axis : Int) :
    sahSweep 0 4 ((16048 : ℚ)) axis (right_bboxes_of clusterScene)
        [unitCube 1 1 1 1, unitCube 2 2 2 2, unitCube 3 1000 3 3] 1
        (BoundingBox.empty.Extend (unitCube 0 0 0 0).getBoundingBox)
        { best_score := FScore.finite (16108 / 16048), best_axis := 0, best_split := 2 }
      = { best_score := FScore.finite (16108 / 16048), best_axis := 0, best_split := 2 } := by
  rw [clusterScene_right_bboxes]
  simp [sahSweep, unitCube, Primitive.getBoundingBox, BoundingBox.Extend,
    BoundingBox.SurfaceArea, fdiv, FScore.lt]
  norm_num

theorem clusterScene_surfaceArea :
    (BoundingBox.box ⟨0, 0, 0⟩ ⟨1001, 4, 4⟩).SurfaceArea = 16048 := by
  simp [BoundingBox.SurfaceArea]
  norm_num

/-- C10 at a failing input: the scene holds the cluster `A` of three unit cubes next to
the origin and the cluster `B` of one unit cube at `x = 1000`, in this order.  For every
`std::sort`, `Build_SurfaceArea` returns the split index 2, not `0 + |A| = 3`: the range
`[0, 2)` holds only two of the three primitives of `A`, and `[2, 4)` holds the third
one together with `B`. -/
theorem Build_SurfaceArea_splits_cluster (S : StdSort) :
    Build_SurfaceArea S clusterScene 0 4 (make_bbox clusterScene 0 4) 0
        = some (2, clusterScene) ∧
      slice clusterScene 0 2 = [unitCube 0 0 0 0, unitCube 1 1 1 1] ∧
      slice clusterScene 2 4 = [unitCube 2 2 2 2, unitCube 3 1000 3 3] := by
  refine ⟨?_, by simp [slice, clusterScene], by simp [slice, clusterScene]⟩
  have hu : ¬ usub 4 0 ≤ 2 := by simp [usub]
  simp only [Build_SurfaceArea, if_neg hu, sahAxes, sahAxis_clusterScene,
    clusterScene_bbox, clusterScene_surfaceArea, clusterScene_sweep_first,
    clusterScene_sweep_later, sort_clusterScene]
  simp

/-! ## Fuel -/

theorem BuildHelper_fuel_succ (b : BVHBuilder) :
    ∀ (fuel : Nat) (prims : List Primitive) (start end_ : Nat) (depth : Int)
      (r : BVH × List Primitive),
      BuildHelper b fuel prims start end_ depth = some r →
      BuildHelper b (fuel + 1) prims start end_ depth = some r := by
  intro fuel
  induction fuel with
  | zero => intro prims start end_ depth r h; simp [BuildHelper] at h
  | succ fuel ih =>
    intro prims start end_ depth r h
    rw [BuildHelper] at h ⊢
    generalize (if usub end_ start > 2 then
        b prims start end_ (make_bbox prims start end_) depth
      else some (-1, prims)) = r0 at h ⊢
    cases r0 with
    | none => simp at h
    | some mp =>
      obtain ⟨mid, prims1⟩ := mp
      simp only at h ⊢
      by_cases hm : mid = -1
      · simp only [hm, if_true] at h ⊢
        exact h
      · simp only [hm, if_false] at h ⊢
        cases h1 : BuildHelper b fuel prims1 start (toUInt mid) (depth + 1) with
        | none => simp [h1] at h
        | some c1 =>
          rw [ih _ _ _ _ _ h1]
          rw [h1] at h
          obtain ⟨child1, prims2⟩ := c1
          simp only at h ⊢
          cases h2 : BuildHelper b fuel prims2 (toUInt mid) end_ (depth + 1) with
          | none => simp [h2] at h
          | some c2 =>
            rw [ih _ _ _ _ _ h2]
            rw [h2] at h
            exact h

theorem BuildHelper_fuel_mono (b : BVHBuilder) (prims : List Primitive) (start end_ : Nat)
    (depth : Int) (r : BVH × List Primitive) (fuel : Nat)
    (h : BuildHelper b fuel prims start end_ depth = some r) :
    ∀ extra : Nat, BuildHelper b (fuel + extra) prims start end_ depth = some r := by
  intro extra
  induction extra with
  | zero => exact h
  | succ extra ih => exact BuildHelper_fuel_succ b _ _ _ _ _ _ ih

/-! ## Unions of boxes -/

theorem Extend_comm (a b : BoundingBox) : a.Extend b = b.Extend a := by
  cases a <;> cases b <;> simp [BoundingBox.Extend, min_comm, max_comm]

theorem Extend_assoc (a b c : BoundingBox) :
    (a.Extend b).Extend c = a.Extend (b.Extend c) := by
  cases a <;> cases b <;> cases c <;> simp [BoundingBox.Extend, min_assoc, max_assoc]

theorem Extend_empty_left (a : BoundingBox) : BoundingBox.empty.Extend a = a := by
  cases a <;> rfl

theorem Extend_empty_right (a : BoundingBox) : a.Extend BoundingBox.empty = a := by
  cases a <;> rfl

theorem foldl_Extend_eq (M : List Primitive) :
    ∀ init : BoundingBox,
      M.foldl (fun bbox p => bbox.Extend p.getBoundingBox) init = init.Extend (boxOf M) := by
  unfold boxOf
  induction M with
  | nil => intro init; simp [Extend_empty_right]
  | cons p M ih =>
    intro init
    simp only [List.foldl_cons]
    rw [ih, ih (BoundingBox.empty.Extend p.getBoundingBox), Extend_empty_left, Extend_assoc]

theorem boxOf_append (L R : List Primitive) :
    boxOf (L ++ R) = (boxOf L).Extend (boxOf R) := by
  have h := foldl_Extend_eq R (boxOf L)
  unfold boxOf at h ⊢
  rw [List.foldl_append, h]

theorem boxOf_perm {L M : List Primitive} (h : L.Perm M) : boxOf L = boxOf M := by
  unfold boxOf
  apply List.Perm.foldl_eq' h
  intro x _ y _ z
  rw [Extend_assoc, Extend_assoc, Extend_comm x.getBoundingBox]

/-! ## More on the trees that `BuildHelper` returns -/

theorem Builds.leafLists {b : BVHBuilder} {M M1 : List Primitive} {depth : Int}
    {t : BVH} (h : Builds b M depth t M1) : t.leafLists = M1 := by
  induction h with
  | forced M depth hM => rfl
  | declined A M C M1 depth hM hb hp => rfl
  | split A M C L R L1 R1 depth child1 child2 hM hb hL hR hp h1 h2 ih1 ih2 =>
    simp only [BVH.leafLists, ih1, ih2]

theorem Builds.tight {b : BVHBuilder} {M M1 : List Primitive} {depth : Int}
    {t : BVH} (h : Builds b M depth t M1) : ∀ n ∈ t.nodes, n.TightNode := by
  induction h with
  | forced M depth hM =>
    intro n hn
    simp only [BVH.nodes, List.append_nil, List.mem_singleton] at hn
    subst hn
    refine ⟨fun _ => rfl, ?_⟩
    intro c1 c2 hc
    simp [BVH.getChild1] at hc
  | declined A M C M1 depth hM hb hp =>
    intro n hn
    simp only [BVH.nodes, List.append_nil, List.mem_singleton] at hn
    subst hn
    refine ⟨fun _ => (boxOf_perm hp).symm, ?_⟩
    intro c1 c2 hc
    simp [BVH.getChild1] at hc
  | split A M C L R L1 R1 depth child1 child2 hM hb hL hR hp h1 h2 ih1 ih2 =>
    intro n hn
    simp only [BVH.nodes, List.mem_cons, List.mem_append] at hn
    rcases hn with hn | hn | hn
    · subst hn
      refine ⟨fun hl => by simp [BVH.isLeaf] at hl, ?_⟩
      intro c1 c2 hc1 hc2
      simp only [BVH.getChild1, BVH.getChild2, Option.some.injEq] at hc1 hc2
      subst hc1
      subst hc2
      show boxOf M = child1.getBoundingBox.Extend child2.getBoundingBox
      rw [h1.bbox, h2.bbox, ← boxOf_append, boxOf_perm hp]
    · exact ih1 n hn
    · exact ih2 n hn

/-! ## `checkRepr` on arbitrary trees -/

theorem mem_nodes_self : ∀ t : BVH, t ∈ t.nodes
  | .mk _ _ _ _ _ => by
    unfold BVH.nodes
    exact List.mem_cons_self _ _

theorem checkRepr_none_iff : ∀ (t : BVH),
    t.checkRepr = none ↔ ∃ n ∈ t.nodes, ¬ n.BothOrNeither
  | .mk bbox depth none none ps => by
    simp [BVH.checkRepr, BVH.nodes, BVH.BothOrNeither, BVH.getChild1, BVH.getChild2]
  | .mk bbox depth (some c1) (some c2) ps => by
    have i1 := checkRepr_none_iff c1
    have i2 := checkRepr_none_iff c2
    simp only [BVH.checkRepr, BVH.nodes, List.mem_cons, List.mem_append]
    constructor
    · intro h
      cases h1 : c1.checkRepr with
      | none =>
        obtain ⟨n, hn, hbad⟩ := i1.mp h1
        exact ⟨n, Or.inr (Or.inl hn), hbad⟩
      | some e1 =>
        cases h2 : c2.checkRepr with
        | none =>
          obtain ⟨n, hn, hbad⟩ := i2.mp h2
          exact ⟨n, Or.inr (Or.inr hn), hbad⟩
        | some e2 => simp [h1, h2] at h
    · rintro ⟨n, hn | hn | hn, hbad⟩
      · subst hn
        exact absurd (Or.inr ⟨by simp [BVH.getChild1], by simp [BVH.getChild2]⟩) hbad
      · rw [i1.mpr ⟨n, hn, hbad⟩]
      · rw [i2.mpr ⟨n, hn, hbad⟩]
        cases c1.checkRepr <;> rfl
  | .mk bbox depth none (some c2) ps => by
    simp only [BVH.checkRepr, true_iff]
    refine ⟨_, mem_nodes_self _, ?_⟩
    simp [BVH.BothOrNeither, BVH.getChild1, BVH.getChild2]
  | .mk bbox depth (some c1) none ps => by
    simp only [BVH.checkRepr, true_iff]
    refine ⟨_, mem_nodes_self _, ?_⟩
    simp [BVH.BothOrNeither, BVH.getChild1, BVH.getChild2]

theorem checkRepr_exclusiveNode : ∀ (n : BVH), n.checkRepr = some 0 → n.ExclusiveNode
  | .mk bbox depth none none ps, _ => by
    simp [BVH.ExclusiveNode, BVH.getChild1, BVH.getChild2]
  | .mk bbox depth (some c1) (some c2) ps, h => by
    obtain ⟨hps, _, _, _, _⟩ := checkRepr_node h
    simp [BVH.ExclusiveNode, BVH.getChild1, BVH.getChild2, BVH.getPrimitives, hps]
  | .mk _ _ none (some _) _, h => by simp [BVH.checkRepr] at h
  | .mk _ _ (some _) none _, h => by simp [BVH.checkRepr] at h

theorem checkRepr_zero_of_nodes : ∀ (t : BVH),
    (∀ n ∈ t.nodes, n.ExclusiveNode ∧ n.ContainedNode) → t.checkRepr = some 0
  | .mk bbox depth none none ps, h => by
    have hroot := (h (BVH.mk bbox depth none none ps) (mem_nodes_self _)).2.1 rfl
    simp only [BVH.checkRepr, Option.some.injEq]
    exact leafViolations_eq_zero hroot
  | .mk bbox depth (some c1) (some c2) ps, h => by
    have hroot := h (BVH.mk bbox depth (some c1) (some c2) ps) (mem_nodes_self _)
    have hps : ps = [] := hroot.1.2 (Or.inl (by simp [BVH.getChild1]))
    have s1 : c1.getBoundingBox.isSubset bbox = true :=
      hroot.2.2 c1 (Or.inl rfl)
    have s2 : c2.getBoundingBox.isSubset bbox = true :=
      hroot.2.2 c2 (Or.inr rfl)
    have r1 := checkRepr_zero_of_nodes c1
      (fun n hn => h n (by simp [BVH.nodes, hn]))
    have r2 := checkRepr_zero_of_nodes c2
      (fun n hn => h n (by simp [BVH.nodes, hn]))
    simp [BVH.checkRepr, hps, s1, s2, r1, r2]
  | .mk bbox depth none (some c2) ps, h => by
    have hroot := (h (BVH.mk bbox depth none (some c2) ps) (mem_nodes_self _)).1.1
    simp [BVH.getChild1, BVH.getChild2] at hroot
  | .mk bbox depth (some c1) none ps, h => by
    have hroot := (h (BVH.mk bbox depth (some c1) none ps) (mem_nodes_self _)).1.1
    simp [BVH.getChild1, BVH.getChild2] at hroot

/-! ## Sorted ranges -/

theorem slice_mid_take (A M C : List Primitive) (k : Nat) (hk : k ≤ M.length) :
    slice (A ++ M ++ C) A.length (A.length + k) = M.take k := by
  unfold slice
  rw [List.append_assoc, List.drop_left, Nat.add_sub_cancel_left,
    List.take_append_of_le_length hk]

theorem slice_mid_drop (A M C : List Primitive) (k : Nat) (hk : k ≤ M.length) :
    slice (A ++ M ++ C) (A.length + k) (A.length + M.length) = M.drop k := by
  unfold slice
  have e : A.length + M.length - (A.length + k) = (M.drop k).length := by
    rw [List.length_drop]; omega
  rw [List.append_assoc, ← List.drop_drop, List.drop_left,
    List.drop_append_of_le_length hk, e, List.take_left]

theorem run_sorted (S : StdSort) (axis : Int) (M : List Primitive) :
    (S.run (axisLess axis) M).Pairwise (fun a b => centreOn axis a ≤ centreOn axis b) := by
  refine (S.sorted (axisLess axis) M (axisLess_strictWeak axis)).imp ?_
  intro a b h
  simpa [axisLess, centreOn] using h

theorem pairwise_take_drop {R : Primitive → Primitive → Prop} {M : List Primitive}
    (h : M.Pairwise R) (k : Nat) : ∀ p ∈ M.take k, ∀ q ∈ M.drop k, R p q := by
  rw [← List.take_append_drop k M, List.pairwise_append] at h
  exact h.2.2

theorem longestAxis_spec (bbox : BoundingBox) :
    (longestAxis bbox = 0 ∨ longestAxis bbox = 1 ∨ longestAxis bbox = 2) ∧
    ∀ a : Int, a = 0 ∨ a = 1 ∨ a = 2 →
      bbox.extent a ≤ bbox.extent (longestAxis bbox) ∧
      (a < longestAxis bbox → bbox.extent a < bbox.extent (longestAxis bbox)) := by
  have e0 : bbox.extent 0 = bbox.getMax.x - bbox.getMin.x := by
    simp [BoundingBox.extent, Vec3f.get]
  have e1 : bbox.extent 1 = bbox.getMax.y - bbox.getMin.y := by
    simp [BoundingBox.extent, Vec3f.get]
  have e2 : bbox.extent 2 = bbox.getMax.z - bbox.getMin.z := by
    simp [BoundingBox.extent, Vec3f.get]
  by_cases hx : bbox.getMax.x - bbox.getMin.x ≥ bbox.getMax.y - bbox.getMin.y ∧
      bbox.getMax.x - bbox.getMin.x ≥ bbox.getMax.z - bbox.getMin.z
  · have ha : longestAxis bbox = 0 := by
      unfold longestAxis
      rw [if_pos hx]
    rw [ha]
    refine ⟨Or.inl rfl, ?_⟩
    rintro a (rfl | rfl | rfl)
    · exact ⟨le_refl _, fun hlt => absurd hlt (by decide)⟩
    · exact ⟨by rw [e0, e1]; exact hx.1, fun hlt => absurd hlt (by decide)⟩
    · exact ⟨by rw [e0, e2]; exact hx.2, fun hlt => absurd hlt (by decide)⟩
  · have hx1 : bbox.getMax.x - bbox.getMin.x < bbox.getMax.y - bbox.getMin.y ∨
        bbox.getMax.x - bbox.getMin.x < bbox.getMax.z - bbox.getMin.z := by
      by_contra hc
      push_neg at hc
      exact hx ⟨hc.1, hc.2⟩
    by_cases hy : bbox.getMax.y - bbox.getMin.y ≥ bbox.getMax.x - bbox.getMin.x ∧
        bbox.getMax.y - bbox.getMin.y ≥ bbox.getMax.z - bbox.getMin.z
    · have ha : longestAxis bbox = 1 := by
        unfold longestAxis
        rw [if_neg hx, if_pos hy]
      rw [ha]
      refine ⟨Or.inr (Or.inl rfl), ?_⟩
      rintro a (rfl | rfl | rfl)
      · refine ⟨by rw [e0, e1]; exact hy.1, fun _ => ?_⟩
        rw [e0, e1]
        rcases hx1 with h | h
        · exact h
        · exact lt_of_lt_of_le h hy.2
      · exact ⟨le_refl _, fun hlt => absurd hlt (by decide)⟩
      · exact ⟨by rw [e1, e2]; exact hy.2, fun hlt => absurd hlt (by decide)⟩
    · have hy1 : bbox.getMax.y - bbox.getMin.y < bbox.getMax.x - bbox.getMin.x ∨
          bbox.getMax.y - bbox.getMin.y < bbox.getMax.z - bbox.getMin.z := by
        by_contra hc
        push_neg at hc
        exact hy ⟨hc.1, hc.2⟩
      have ha : longestAxis bbox = 2 := by
        unfold longestAxis
        rw [if_neg hx, if_neg hy]
      have hxz : bbox.getMax.x - bbox.getMin.x < bbox.getMax.z - bbox.getMin.z := by
        rcases hx1 with h | h
        · rcases hy1 with g | g
          · exact absurd h (not_lt.mpr (le_of_lt g))
          · exact lt_trans h g
        · exact h
      have hyz : bbox.getMax.y - bbox.getMin.y < bbox.getMax.z - bbox.getMin.z := by
        rcases hy1 with g | g
        · exact lt_trans g hxz
        · exact g
      rw [ha]
      refine ⟨Or.inr (Or.inr rfl), ?_⟩
      rintro a (rfl | rfl | rfl)
      · exact ⟨by rw [e0, e2]; exact le_of_lt hxz, fun _ => by rw [e0, e2]; exact hxz⟩
      · exact ⟨by rw [e1, e2]; exact le_of_lt hyz, fun _ => by rw [e1, e2]; exact hyz⟩
      · exact ⟨le_refl _, fun hlt => absurd hlt (by decide)⟩

/-! ## Median builds -/

theorem Build_Longest_medianBuilder (S : StdSort) : MedianBuilder (Build_Longest S) :=
  fun A M C bbox depth hM => ⟨_, Build_Longest_mid S A M C bbox depth hM⟩

theorem Build_Alternate_medianBuilder (S : StdSort) : MedianBuilder (Build_Alternate S) :=
  fun A M C bbox depth hM =>
    ⟨_, Build_Alternate_mid S A M C bbox depth (by intro h; simp [h] at hM)⟩

theorem height_step (a b h1 h2 : Nat) (hab : a ≤ b) (hba : b ≤ a + 1)
    (ha1 : a ≤ 2 → h1 = 0) (ha2 : 2 ≤ a → 2 ^ h1 < a ∧ a ≤ 2 ^ (h1 + 1))
    (hb : 2 ^ h2 < b ∧ b ≤ 2 ^ (h2 + 1)) :
    2 ^ (1 + max h1 h2) < a + b ∧ a + b ≤ 2 ^ (1 + max h1 h2 + 1) := by
  have hle : h1 ≤ h2 := by
    by_cases ha : a ≤ 2
    · rw [ha1 ha]; exact Nat.zero_le _
    · have h3 := ha2 (by omega)
      have h4 : 2 ^ h1 < 2 ^ (h2 + 1) := by omega
      have := (Nat.pow_lt_pow_iff_right (by decide : 1 < 2)).mp h4
      omega
  rw [Nat.max_eq_right hle]
  have e1 : 2 ^ (1 + h2) = 2 ^ h2 * 2 := by rw [Nat.add_comm, Nat.pow_succ]
  have e2 : 2 ^ (1 + h2 + 1) = 2 ^ h2 * 2 * 2 := by rw [Nat.pow_succ, e1]
  have e3 : 2 ^ (h2 + 1) = 2 ^ h2 * 2 := Nat.pow_succ 2 h2
  rw [e1, e2]
  rw [e3] at hb
  generalize 2 ^ h2 = x at hb ⊢
  omega

theorem Builds.balanced {b : BVHBuilder} (hmed : MedianBuilder b) {M M1 : List Primitive}
    {depth : Int} {t : BVH} (h : Builds b M depth t M1) (hpos : 1 ≤ M.length) :
    (∀ n ∈ t.nodes, n.BalancedNode) ∧
    ∃ hgt, t.computeHeight = some hgt ∧ (M.length ≤ 2 → hgt = 0) ∧
      (2 ≤ M.length → 2 ^ hgt < M.length ∧ M.length ≤ 2 ^ (hgt + 1)) := by
  induction h with
  | forced M depth hM =>
    constructor
    · intro n hn
      simp only [BVH.nodes, List.append_nil, List.mem_singleton] at hn
      subst hn
      refine ⟨fun _ => ?_, ?_⟩
      · show M.length = 1 ∨ M.length = 2
        omega
      · intro c1 c2 hc
        simp [BVH.getChild1] at hc
    · refine ⟨0, rfl, fun _ => rfl, ?_⟩
      intro h2
      have : M.length = 2 := by omega
      rw [this]
      decide
  | declined A M C M1 depth hM hb hp =>
    obtain ⟨M2, hcall⟩ := hmed A M C (boxOf M) depth hM
    rw [hcall] at hb
    simp only [Option.some.injEq, Prod.mk.injEq] at hb
    omega
  | split A M C L R L1 R1 depth child1 child2 hM hb hL hR hp h1 h2 ih1 ih2 =>
    obtain ⟨M2, hcall⟩ := hmed A M C (boxOf M) depth hM
    rw [hcall] at hb
    simp only [Option.some.injEq, Prod.mk.injEq] at hb
    have hlen := hp.length_eq
    rw [List.length_append] at hlen
    have hLlen : L.length = M.length / 2 := by omega
    have hRlen : R.length = M.length - M.length / 2 := by omega
    obtain ⟨n1, g1, z1, b1⟩ := ih1 (by omega)
    obtain ⟨n2, g2, z2, b2⟩ := ih2 (by omega)
    constructor
    · intro n hn
      simp only [BVH.nodes, List.mem_cons, List.mem_append] at hn
      rcases hn with hn | hn | hn
      · subst hn
        refine ⟨fun hl => by simp [BVH.isLeaf] at hl, ?_⟩
        intro c1 c2 hc1 hc2
        simp only [BVH.getChild1, BVH.getChild2, Option.some.injEq] at hc1 hc2
        subst hc1
        subst hc2
        exact ⟨L.length, R.length, h1.primitiveCount, h2.primitiveCount,
          by omega, by omega⟩
      · exact n1 n hn
      · exact n2 n hn
    · refine ⟨1 + max g1 g2, ?_, fun hsmall => by omega, fun _ => ?_⟩
      · simp only [BVH.computeHeight, z1, z2]
      · have hs := height_step L.length R.length g1 g2 (by omega) (by omega)
          b1.1 b1.2 (b2.2 (by omega))
        rw [← hlen]
        exact hs

/-! ## The sweep of `Build_SurfaceArea` -/

theorem sahSweep_eq_foldl (start end_ : Nat) (sa : ℚ) (axis : Int)
    (rb : List BoundingBox) :
    ∀ (rest : List Primitive) (mid : Nat) (left : BoundingBox) (best : SahBest),
      sahSweep start end_ sa axis rb rest mid left best
        = (sahScores start end_ sa rb rest mid left).foldl (sahRecord axis) best := by
  intro rest
  induction rest with
  | nil => intro mid left best; rfl
  | cons p rest ih =>
    intro mid left best
    simp only [sahSweep, sahScores, List.foldl_cons, ih, sahRecord]

theorem boxOf_cons (p : Primitive) (M : List Primitive) :
    boxOf (p :: M) = p.getBoundingBox.Extend (boxOf M) := by
  have h := boxOf_append [p] M
  simpa [boxOf, Extend_empty_left] using h

theorem right_bboxes_headD : ∀ seg : List Primitive,
    (right_bboxes_of seg).headD BoundingBox.empty = boxOf seg
  | [] => rfl
  | p :: ps => by
    simp only [right_bboxes_of, List.headD_cons, right_bboxes_headD ps, boxOf_cons]
    exact Extend_comm _ _

theorem right_bboxes_getD : ∀ (seg : List Primitive) (k : Nat),
    (right_bboxes_of seg).getD k BoundingBox.empty = boxOf (seg.drop k)
  | [], k => by simp [right_bboxes_of, boxOf]
  | p :: ps, 0 => by
    have h := right_bboxes_headD (p :: ps)
    simp only [right_bboxes_of, List.headD_cons] at h
    simp only [right_bboxes_of, List.getD_cons_zero, List.drop_zero]
    exact h
  | p :: ps, k + 1 => by
    simp only [right_bboxes_of, List.getD_cons_succ, List.drop_succ_cons]
    exact right_bboxes_getD ps k

theorem sahScores_eq_aux (bbox : BoundingBox) (seg : List Primitive) (start : Nat) :
    ∀ (rest pre : List Primitive), seg = pre ++ rest →
      sahScores start (start + seg.length) bbox.SurfaceArea (right_bboxes_of seg) rest
          (start + pre.length) (boxOf pre)
        = (List.range' (start + pre.length) rest.length).map
            (fun mid => (mid, sahCostCode bbox seg start mid (start + seg.length))) := by
  intro rest
  induction rest with
  | nil => intro pre _; rfl
  | cons p rest ih =>
    intro pre hseg
    have hpre : seg = (pre ++ [p]) ++ rest := by simp [hseg]
    have hleft : (boxOf pre).Extend p.getBoundingBox = boxOf (pre ++ [p]) := by
      rw [boxOf_append, boxOf_cons]
      simp [boxOf, Extend_empty_right]
    have htake : seg.take (pre.length + 1) = pre ++ [p] := by
      rw [hpre]
      have : pre.length + 1 = (pre ++ [p]).length := by simp
      rw [this, List.take_left]
    have ih1 := ih (pre ++ [p]) hpre
    simp only [List.length_append, List.length_singleton] at ih1
    simp only [sahScores, List.length_cons, List.range'_succ, List.map_cons, hleft]
    rw [← Nat.add_assoc] at ih1
    rw [ih1]
    simp only [sahCostCode, Nat.add_sub_cancel_left, right_bboxes_getD, htake]

/-- What the forward sweep computes: for every candidate `mid` with
`start < mid < end`, in this order, the cost `sahCostCode`, whose left box is the union
of the boxes at `[start, mid]`. -/
theorem sahScores_eq (bbox : BoundingBox) (first : Primitive) (rest : List Primitive)
    (start : Nat) :
    sahScores start (start + (first :: rest).length) bbox.SurfaceArea
        (right_bboxes_of (first :: rest)) rest (start + 1)
        (BoundingBox.empty.Extend first.getBoundingBox)
      = (List.range' (start + 1) rest.length).map
          (fun mid => (mid, sahCostCode bbox (first :: rest) start mid
            (start + (first :: rest).length))) := by
  have h := sahScores_eq_aux bbox (first :: rest) start rest [first] rfl
  simpa [boxOf] using h

/-! ## The claims, continued -/

/-- C11 as stated fails: on a tree whose root has exactly one child, `checkRepr` returns
no count; the assertion of `isLeaf` fails. -/
theorem checkRepr_counts_counterexample :
    ¬ ∃ e, oneChildTree.checkRepr = some e := by
  rintro ⟨e, h⟩
  simp [oneChildTree, BVH.checkRepr] at h

/-- C11, amended: `checkRepr` stops at the failed assertion of `isLeaf` exactly on the
trees in which some node has exactly one child; on every other tree (also when an
inner node carries primitives, or a box is not contained) it returns a count, the count
is never negative, and it is 0 exactly when every node has both-or-neither children,
every primitive of a leaf has its box inside the box of the leaf, every node with
children has no primitives, and every child has its box inside the box of its parent. -/
theorem checkRepr_counts (t : BVH) :
    (t.checkRepr = none ↔ ∃ n ∈ t.nodes, ¬ n.BothOrNeither) ∧
    (∀ e, t.checkRepr = some e → 0 ≤ e) ∧
    (t.checkRepr = some 0 ↔ ∀ n ∈ t.nodes, n.ExclusiveNode ∧ n.ContainedNode) :=
  ⟨checkRepr_none_iff t, checkRepr_nonneg t,
    fun h n hn => ⟨checkRepr_exclusiveNode n (checkRepr_nodes t h n hn),
      checkRepr_containedNode n (checkRepr_nodes t h n hn)⟩,
    checkRepr_zero_of_nodes t⟩

/-- C12, heuristic name parsing: `bvh_parse_heuristic` maps `"naive"`, `"longest"`, the
empty string, `"alternate"` and `"surface_area"` to their heuristics, fails exactly on
every other name (so also on names that differ in case only), and parses back what
`bvh_heuristic_to_string` prints. -/
theorem bvh_parse_heuristic_names :
    bvh_parse_heuristic "naive" = some BVH_Heuristic.BVH_NaiveFlat ∧
    bvh_parse_heuristic "longest" = some BVH_Heuristic.BVH_LongestAxis_Median ∧
    bvh_parse_heuristic "" = some BVH_Heuristic.BVH_LongestAxis_Median ∧
    bvh_parse_heuristic "alternate" = some BVH_Heuristic.BVH_AlternateAxis_Median ∧
    bvh_parse_heuristic "surface_area" = some BVH_Heuristic.BVH_BestAxis_SurfaceArea ∧
    (∀ name : String, bvh_parse_heuristic name = none ↔
      (name ≠ "naive" ∧ name ≠ "longest" ∧ name ≠ "" ∧ name ≠ "alternate" ∧
        name ≠ "surface_area")) ∧
    bvh_parse_heuristic "Naive" = none ∧
    bvh_parse_heuristic "LONGEST" = none ∧
    (∀ h : BVH_Heuristic, bvh_parse_heuristic (bvh_heuristic_to_string h) = some h) := by
  refine ⟨by decide, by decide, by decide, by decide, by decide, ?_, by decide, by decide, ?_⟩
  · intro name
    unfold bvh_parse_heuristic
    constructor
    · intro h
      refine ⟨?_, ?_, ?_, ?_, ?_⟩ <;> intro hn <;> subst hn <;> simp at h
    · rintro ⟨h1, h2, h3, h4, h5⟩
      simp [h1, h2, h3, h4, h5]
  · intro h
    cases h <;> decide

/-- C13, tight boxes: in every tree built with any of the four heuristics, the box of
each leaf is the union of the boxes of the primitives it stores, and the box of each
inner node is the union of the boxes of its two children. -/
theorem BuildHelper_tight_boxes (S : StdSort) (h : BVH_Heuristic) (P : List Primitive)
    (fuel : Nat) (hfuel : P.length < fuel) :
    ∃ t P1, BuildHelper (builderOf S h) fuel P 0 P.length 0 = some (t, P1) ∧
      ∀ n ∈ t.nodes, n.TightNode := by
  obtain ⟨t, P1, hrun, hB⟩ := BuildHelper_root _ (builderOf_contract S h) P fuel hfuel
  exact ⟨t, P1, hrun, hB.tight⟩

/-- C13 at the cluster scene with the surface-area heuristic and fuel 5. -/
theorem BuildHelper_tight_boxes_witness :
    clusterScene.length < 5 ∧
    ∃ t P1, BuildHelper (builderOf refSort BVH_Heuristic.BVH_BestAxis_SurfaceArea) 5
        clusterScene 0 clusterScene.length 0 = some (t, P1) ∧
      ∀ n ∈ t.nodes, n.TightNode :=
  ⟨by decide, BuildHelper_tight_boxes refSort BVH_Heuristic.BVH_BestAxis_SurfaceArea
    clusterScene 5 (by decide)⟩

/-- C18, the build terminates: for each of the four heuristics, a call on a range of
more than two primitives inside the array returns, keeps the length of the array, and
answers `-1` or an index strictly between `start` and `end`; and for every primitive
list `P` there is one result that `BuildHelper` returns for every fuel above `|P|`. -/
theorem BuildHelper_total (S : StdSort) (h : BVH_Heuristic) (P : List Primitive) :
    (∀ (primitives : List Primitive) (start end_ : Nat) (bbox : BoundingBox) (depth : Int),
      start + 2 < end_ → end_ ≤ primitives.length →
      ∃ mid prims1, builderOf S h primitives start end_ bbox depth = some (mid, prims1) ∧
        prims1.length = primitives.length ∧
        (mid = -1 ∨ ((start : Int) < mid ∧ mid < (end_ : Int)))) ∧
    (∃ r, ∀ fuel, P.length < fuel →
      BuildHelper (builderOf S h) fuel P 0 P.length 0 = some r) := by
  constructor
  · intro primitives start end_ bbox depth hlt hle
    obtain ⟨mid, M1, hcall, hp, hs⟩ :=
      builderOf_range S h primitives start end_ bbox depth (by omega) hle
    obtain ⟨hsplit, _, _⟩ := range_split primitives start end_ (by omega) hle
    refine ⟨mid, _, hcall, ?_, hs (by omega)⟩
    conv_rhs => rw [hsplit]
    simp only [List.length_append, hp.length_eq]
  · obtain ⟨t, P1, hrun, _⟩ :=
      BuildHelper_root _ (builderOf_contract S h) P (P.length + 1) (Nat.lt_succ_self _)
    refine ⟨(t, P1), ?_⟩
    intro fuel hfuel
    have hmono := BuildHelper_fuel_mono _ _ _ _ _ _ _ hrun (fuel - (P.length + 1))
    have e : P.length + 1 + (fuel - (P.length + 1)) = fuel := by omega
    rw [e] at hmono
    exact hmono

/-- C19, no primitive lost or duplicated: for each of the four heuristics and every
primitive list `P`, the array after the build is a permutation of `P`, and the
primitive lists of the leaves, concatenated from left to right, are that array. -/
theorem BuildHelper_keeps_primitives (S : StdSort) (h : BVH_Heuristic)
    (P : List Primitive) (fuel : Nat) (hfuel : P.length < fuel) :
    ∃ t P1, BuildHelper (builderOf S h) fuel P 0 P.length 0 = some (t, P1) ∧
      P1.Perm P ∧ t.leafLists = P1 := by
  obtain ⟨t, P1, hrun, hB⟩ := BuildHelper_root _ (builderOf_contract S h) P fuel hfuel
  exact ⟨t, P1, hrun, hB.perm, hB.leafLists⟩

/-- C19 at the cluster scene with the alternate-axis heuristic and fuel 5. -/
theorem BuildHelper_keeps_primitives_witness :
    clusterScene.length < 5 ∧
    ∃ t P1, BuildHelper (builderOf refSort BVH_Heuristic.BVH_AlternateAxis_Median) 5
        clusterScene 0 clusterScene.length 0 = some (t, P1) ∧
      P1.Perm clusterScene ∧ t.leafLists = P1 :=
  ⟨by decide, BuildHelper_keeps_primitives refSort BVH_Heuristic.BVH_AlternateAxis_Median
    clusterScene 5 (by decide)⟩

theorem median_range (S : StdSort) (axis : Int) (primitives : List Primitive)
    (start end_ : Nat) (hlt : start < end_) (hlen : end_ ≤ primitives.length) :
    ∃ prims1, prims1 = primitives.take start
          ++ S.run (axisLess axis) (slice primitives start end_) ++ primitives.drop end_ ∧
      (slice prims1 start end_).Perm (slice primitives start end_) ∧
      (slice prims1 start end_).Pairwise (fun a b => centreOn axis a ≤ centreOn axis b) ∧
      (∀ p ∈ slice prims1 start ((start + end_) / 2),
        ∀ q ∈ slice prims1 ((start + end_) / 2) end_, centreOn axis p ≤ centreOn axis q) := by
  obtain ⟨_, hA, hAM⟩ := range_split primitives start end_ (le_of_lt hlt) hlen
  have hl := run_length S axis (slice primitives start end_)
  have hs := slice_mid (primitives.take start)
    (S.run (axisLess axis) (slice primitives start end_)) (primitives.drop end_)
  rw [hl, hAM, hA] at hs
  refine ⟨_, rfl, ?_, ?_, ?_⟩
  · rw [hs]
    exact S.perm _ _ (axisLess_strictWeak axis)
  · rw [hs]
    exact run_sorted S axis _
  · have hk : (start + end_) / 2 - start ≤
        (S.run (axisLess axis) (slice primitives start end_)).length := by
      rw [hl]; omega
    have e1 : start + ((start + end_) / 2 - start) = (start + end_) / 2 := by omega
    have ht := slice_mid_take (primitives.take start)
      (S.run (axisLess axis) (slice primitives start end_)) (primitives.drop end_) _ hk
    have hd := slice_mid_drop (primitives.take start)
      (S.run (axisLess axis) (slice primitives start end_)) (primitives.drop end_) _ hk
    rw [hA, e1] at ht
    rw [hl, hAM, hA, e1] at hd
    rw [ht, hd]
    exact pairwise_take_drop (run_sorted S axis _) _

/-- C16, longest-axis median: on a range `[start, end)` inside the array,
`Build_Longest` returns `-1` (and leaves the array alone) when `end - start <= 2`;
otherwise it returns `floor((start + end) / 2)`, which is not `-1`, and leaves the range
a permutation of itself sorted in non-decreasing order of centre coordinate on the axis
`longestAxis bbox`, so that every primitive left of the split has a centre no greater
than every primitive right of it; that axis is the lowest-indexed one among those on
which the extent of `bbox` is largest. -/
theorem Build_Longest_median (S : StdSort) (primitives : List Primitive)
    (start end_ : Nat) (bbox : BoundingBox) (depth : Int)
    (hle : start ≤ end_) (hlen : end_ ≤ primitives.length) :
    (end_ - start ≤ 2 →
      Build_Longest S primitives start end_ bbox depth = some (-1, primitives)) ∧
    (2 < end_ - start →
      ∃ prims1, Build_Longest S primitives start end_ bbox depth
          = some ((((start + end_) / 2 : Nat) : Int), prims1) ∧
        (((start + end_) / 2 : Nat) : Int) ≠ -1 ∧
        (slice prims1 start end_).Perm (slice primitives start end_) ∧
        (slice prims1 start end_).Pairwise
          (fun a b => centreOn (longestAxis bbox) a ≤ centreOn (longestAxis bbox) b) ∧
        (∀ p ∈ slice prims1 start ((start + end_) / 2),
          ∀ q ∈ slice prims1 ((start + end_) / 2) end_,
            centreOn (longestAxis bbox) p ≤ centreOn (longestAxis bbox) q)) ∧
    ((longestAxis bbox = 0 ∨ longestAxis bbox = 1 ∨ longestAxis bbox = 2) ∧
      ∀ a : Int, a = 0 ∨ a = 1 ∨ a = 2 →
        bbox.extent a ≤ bbox.extent (longestAxis bbox) ∧
        (a < longestAxis bbox → bbox.extent a < bbox.extent (longestAxis bbox))) := by
  obtain ⟨hsplit, hA, hAM⟩ := range_split primitives start end_ hle hlen
  refine ⟨?_, ?_, longestAxis_spec bbox⟩
  · intro hsmall
    have h := Build_Longest_small S (primitives.take start) (slice primitives start end_)
      (primitives.drop end_) bbox depth (by omega)
    rw [hAM, hA, ← hsplit] at h
    exact h
  · intro hbig
    have h := Build_Longest_mid S (primitives.take start) (slice primitives start end_)
      (primitives.drop end_) bbox depth (by omega)
    rw [hAM, hA, ← hsplit] at h
    obtain ⟨prims1, hp1, hperm, hsorted, hsep⟩ :=
      median_range S (longestAxis bbox) primitives start end_ (by omega) hlen
    rw [← hp1] at h
    exact ⟨prims1, h, by omega, hperm, hsorted, hsep⟩

/-- C16 at the cluster scene, range `[0, 4)`. -/
theorem Build_Longest_median_witness :
    0 ≤ 4 ∧ 4 ≤ clusterScene.length ∧
    ((4 - 0 ≤ 2 →
      Build_Longest refSort clusterScene 0 4 (make_bbox clusterScene 0 4) 0
        = some (-1, clusterScene)) ∧
    (2 < 4 - 0 →
      ∃ prims1, Build_Longest refSort clusterScene 0 4 (make_bbox clusterScene 0 4) 0
          = some ((((0 + 4) / 2 : Nat) : Int), prims1) ∧
        (((0 + 4) / 2 : Nat) : Int) ≠ -1 ∧
        (slice prims1 0 4).Perm (slice clusterScene 0 4) ∧
        (slice prims1 0 4).Pairwise
          (fun a b => centreOn (longestAxis (make_bbox clusterScene 0 4)) a
            ≤ centreOn (longestAxis (make_bbox clusterScene 0 4)) b) ∧
        (∀ p ∈ slice prims1 0 ((0 + 4) / 2),
          ∀ q ∈ slice prims1 ((0 + 4) / 2) 4,
            centreOn (longestAxis (make_bbox clusterScene 0 4)) p
              ≤ centreOn (longestAxis (make_bbox clusterScene 0 4)) q)) ∧
    ((longestAxis (make_bbox clusterScene 0 4) = 0 ∨
        longestAxis (make_bbox clusterScene 0 4) = 1 ∨
        longestAxis (make_bbox clusterScene 0 4) = 2) ∧
      ∀ a : Int, a = 0 ∨ a = 1 ∨ a = 2 →
        (make_bbox clusterScene 0 4).extent a
            ≤ (make_bbox clusterScene 0 4).extent (longestAxis (make_bbox clusterScene 0 4)) ∧
        (a < longestAxis (make_bbox clusterScene 0 4) →
          (make_bbox clusterScene 0 4).extent a
            < (make_bbox clusterScene 0 4).extent (longestAxis (make_bbox clusterScene 0 4))))) :=
  ⟨by decide, by decide,
    Build_Longest_median refSort clusterScene 0 4 (make_bbox clusterScene 0 4) 0
      (by decide) (by decide)⟩

theorem Builds.alternate_axes (S : StdSort) {M M1 : List Primitive} {depth : Int}
    {t : BVH} (h : Builds (Build_Alternate S) M depth t M1) (hd : 0 ≤ depth) :
    t.getDepth = depth ∧ ∀ n ∈ t.nodes, 0 ≤ n.getDepth ∧ n.SplitOnDepthAxis := by
  induction h with
  | forced M depth hM =>
    refine ⟨rfl, ?_⟩
    intro n hn
    simp only [BVH.nodes, List.append_nil, List.mem_singleton] at hn
    subst hn
    refine ⟨hd, ?_⟩
    intro c1 c2 hc
    simp [BVH.getChild1] at hc
  | declined A M C M1 depth hM hb hp =>
    refine ⟨rfl, ?_⟩
    intro n hn
    simp only [BVH.nodes, List.append_nil, List.mem_singleton] at hn
    subst hn
    refine ⟨hd, ?_⟩
    intro c1 c2 hc
    simp [BVH.getChild1] at hc
  | split A M C L R L1 R1 depth child1 child2 hM hb hL hR hp h1 h2 ih1 ih2 =>
    obtain ⟨d1, n1⟩ := ih1 (by omega)
    obtain ⟨d2, n2⟩ := ih2 (by omega)
    refine ⟨rfl, ?_⟩
    intro n hn
    simp only [BVH.nodes, List.mem_cons, List.mem_append] at hn
    rcases hn with hn | hn | hn
    · subst hn
      refine ⟨hd, ?_⟩
      intro c1 c2 hc1 hc2
      simp only [BVH.getChild1, BVH.getChild2, Option.some.injEq] at hc1 hc2
      subst hc1
      subst hc2
      refine ⟨d1, d2, ?_⟩
      have hne : M ≠ [] := by intro h0; simp [h0] at hM
      rw [Build_Alternate_mid S A M C (boxOf M) depth hne] at hb
      simp only [Option.some.injEq, Prod.mk.injEq] at hb
      have hrun : S.run (axisLess (Int.tmod depth 3)) M = L ++ R :=
        List.append_cancel_left (List.append_cancel_right hb.2)
      have hsorted := run_sorted S (Int.tmod depth 3) M
      rw [hrun, List.pairwise_append, Int.tmod_eq_emod hd (by decide)] at hsorted
      intro p hp1 q hq1
      rw [h1.leafLists] at hp1
      rw [h2.leafLists] at hq1
      exact hsorted.2.2 p (h1.perm.subset hp1) q (h2.perm.subset hq1)
    · exact n1 n hn
    · exact n2 n hn

/-- C17, alternate-axis median: on a non-empty range inside the array and at a depth
`>= 0`, `Build_Alternate` returns `floor((start + end) / 2)`, never `-1`, and leaves the
range a permutation of itself sorted in non-decreasing order of centre coordinate on
axis `depth mod 3`; and in the tree built with it the root is at depth 0, every child is
one level below its parent, and the two children of a node at depth `d` are separated
on axis `d mod 3`. -/
theorem Build_Alternate_median (S : StdSort) (primitives : List Primitive)
    (start end_ : Nat) (bbox : BoundingBox) (depth : Int)
    (hlt : start < end_) (hlen : end_ ≤ primitives.length) (hd : 0 ≤ depth) :
    (∃ prims1, Build_Alternate S primitives start end_ bbox depth
        = some ((((start + end_) / 2 : Nat) : Int), prims1) ∧
      (((start + end_) / 2 : Nat) : Int) ≠ -1 ∧
      (slice prims1 start end_).Perm (slice primitives start end_) ∧
      (slice prims1 start end_).Pairwise
        (fun a b => centreOn (depth % 3) a ≤ centreOn (depth % 3) b) ∧
      (∀ p ∈ slice prims1 start ((start + end_) / 2),
        ∀ q ∈ slice prims1 ((start + end_) / 2) end_,
          centreOn (depth % 3) p ≤ centreOn (depth % 3) q)) ∧
    (∀ (P : List Primitive) (fuel : Nat), P.length < fuel →
      ∃ t P1, BuildHelper (Build_Alternate S) fuel P 0 P.length 0 = some (t, P1) ∧
        t.getDepth = 0 ∧ ∀ n ∈ t.nodes, 0 ≤ n.getDepth ∧ n.SplitOnDepthAxis) := by
  constructor
  · obtain ⟨hsplit, hA, hAM⟩ := range_split primitives start end_ (le_of_lt hlt) hlen
    have hne : slice primitives start end_ ≠ [] := by
      intro h0
      rw [h0] at hAM
      simp only [List.length_nil] at hAM
      omega
    have h := Build_Alternate_mid S (primitives.take start) (slice primitives start end_)
      (primitives.drop end_) bbox depth hne
    rw [hAM, hA, ← hsplit, Int.tmod_eq_emod hd (by decide)] at h
    obtain ⟨prims1, hp1, hperm, hsorted, hsep⟩ :=
      median_range S (depth % 3) primitives start end_ hlt hlen
    rw [← hp1] at h
    exact ⟨prims1, h, by omega, hperm, hsorted, hsep⟩
  · intro P fuel hfuel
    obtain ⟨t, P1, hrun, hB⟩ :=
      BuildHelper_root _ (Build_Alternate_contract S) P fuel hfuel
    exact ⟨t, P1, hrun, hB.alternate_axes S (le_refl 0)⟩

/-- C17 at the cluster scene, range `[1, 4)`, depth 4. -/
theorem Build_Alternate_median_witness :
    1 < 4 ∧ 4 ≤ clusterScene.length ∧ (0 : Int) ≤ 4 ∧
    ((∃ prims1, Build_Alternate refSort clusterScene 1 4 (make_bbox clusterScene 1 4) 4
        = some ((((1 + 4) / 2 : Nat) : Int), prims1) ∧
      (((1 + 4) / 2 : Nat) : Int) ≠ -1 ∧
      (slice prims1 1 4).Perm (slice clusterScene 1 4) ∧
      (slice prims1 1 4).Pairwise
        (fun a b => centreOn ((4 : Int) % 3) a ≤ centreOn ((4 : Int) % 3) b) ∧
      (∀ p ∈ slice prims1 1 ((1 + 4) / 2),
        ∀ q ∈ slice prims1 ((1 + 4) / 2) 4,
          centreOn ((4 : Int) % 3) p ≤ centreOn ((4 : Int) % 3) q)) ∧
    (∀ (P : List Primitive) (fuel : Nat), P.length < fuel →
      ∃ t P1, BuildHelper (Build_Alternate refSort) fuel P 0 P.length 0 = some (t, P1) ∧
        t.getDepth = 0 ∧ ∀ n ∈ t.nodes, 0 ≤ n.getDepth ∧ n.SplitOnDepthAxis)) :=
  ⟨by decide, by decide, by decide,
    Build_Alternate_median refSort clusterScene 1 4 (make_bbox clusterScene 1 4) 4
      (by decide) (by decide) (by decide)⟩

/-- C20, median builds are balanced: for the longest-axis and the alternate-axis
heuristic and every list of at least two primitives, in the built tree every leaf holds
one or two primitives, the primitive counts of the two children of every inner node
differ by at most one, and the height `h` that `computeHeight` returns satisfies
`2^h < n <= 2^(h+1)`, `n` being the number of primitives. -/
theorem BuildHelper_median_balanced (S : StdSort) (h : BVH_Heuristic)
    (hh : h = BVH_Heuristic.BVH_LongestAxis_Median ∨
      h = BVH_Heuristic.BVH_AlternateAxis_Median)
    (P : List Primitive) (hn : 2 ≤ P.length) (fuel : Nat) (hfuel : P.length < fuel) :
    ∃ t P1 hgt, BuildHelper (builderOf S h) fuel P 0 P.length 0 = some (t, P1) ∧
      (∀ n ∈ t.nodes, n.BalancedNode) ∧
      t.computeHeight = some hgt ∧ 2 ^ hgt < P.length ∧ P.length ≤ 2 ^ (hgt + 1) := by
  have hmed : MedianBuilder (builderOf S h) := by
    rcases hh with rfl | rfl
    · exact Build_Longest_medianBuilder S
    · exact Build_Alternate_medianBuilder S
  obtain ⟨t, P1, hrun, hB⟩ := BuildHelper_root _ (builderOf_contract S h) P fuel hfuel
  obtain ⟨hnodes, hgt, hh1, _, hh2⟩ := hB.balanced hmed (by omega)
  exact ⟨t, P1, hgt, hrun, hnodes, hh1, (hh2 hn).1, (hh2 hn).2⟩

/-- C20 at the cluster scene with the longest-axis heuristic and fuel 5. -/
theorem BuildHelper_median_balanced_witness :
    (BVH_Heuristic.BVH_LongestAxis_Median = BVH_Heuristic.BVH_LongestAxis_Median ∨
      BVH_Heuristic.BVH_LongestAxis_Median = BVH_Heuristic.BVH_AlternateAxis_Median) ∧
    2 ≤ clusterScene.length ∧ clusterScene.length < 5 ∧
    ∃ t P1 hgt, BuildHelper (builderOf refSort BVH_Heuristic.BVH_LongestAxis_Median) 5
        clusterScene 0 clusterScene.length 0 = some (t, P1) ∧
      (∀ n ∈ t.nodes, n.BalancedNode) ∧
      t.computeHeight = some hgt ∧ 2 ^ hgt < clusterScene.length ∧
      clusterScene.length ≤ 2 ^ (hgt + 1) :=
  ⟨Or.inl rfl, by decide, by decide,
    BuildHelper_median_balanced refSort BVH_Heuristic.BVH_LongestAxis_Median (Or.inl rfl)
      clusterScene (by decide) 5 (by decide)⟩

/-- One iteration of the axis loop of `Build_SurfaceArea` on the range `M` between `A`
and `C`: the range is sorted, and the running minimum is updated with the cost
`sahCostCode` of every candidate strictly inside the range, in increasing order. -/
theorem sahAxis_scores (S : StdSort) (A M C : List Primitive) (bbox : BoundingBox)
    (axis : Int) (best : SahBest) (hM : M ≠ []) :
    sahAxis S A.length (A.length + M.length) bbox axis (A ++ M ++ C) best
      = some (A ++ S.run (axisLess axis) M ++ C,
          ((List.range' (A.length + 1) (M.length - 1)).map
            (fun mid => (mid, sahCostCode bbox (S.run (axisLess axis) M) A.length mid
              (A.length + M.length)))).foldl (sahRecord axis) best) := by
  have hl := run_length S axis M
  have hpos : 0 < M.length := List.length_pos.mpr hM
  unfold sahAxis
  rw [sort_by_axis_mid S A M C axis hM]
  simp only
  rw [if_neg (by omega)]
  have hs : slice (A ++ S.run (axisLess axis) M ++ C) A.length (A.length + M.length)
      = S.run (axisLess axis) M := by
    have := slice_mid A (S.run (axisLess axis) M) C
    rwa [hl] at this
  rw [hs]
  cases hrun : S.run (axisLess axis) M with
  | nil => exact absurd hrun (run_ne_nil S axis M hM)
  | cons first rest =>
    rw [hrun] at hl
    simp only [List.length_cons] at hl
    have hsc := sahScores_eq bbox first rest A.length
    simp only [List.length_cons, hl] at hsc
    simp only [sahSweep_eq_foldl, hsc]
    have e : M.length - 1 = rest.length := by omega
    rw [e]

theorem clusterScene_costCode :
    sahCostCode (make_bbox clusterScene 0 4) clusterScene 0 1 4
        = FScore.finite (36078 / 16048) ∧
    sahCostCode (make_bbox clusterScene 0 4) clusterScene 0 2 4
        = FScore.finite (16108 / 16048) ∧
    sahCostCode (make_bbox clusterScene 0 4) clusterScene 0 3 4
        = FScore.finite (48150 / 16048) := by
  rw [clusterScene_bbox]
  refine ⟨?_, ?_, ?_⟩ <;>
    simp [sahCostCode, boxOf, clusterScene, unitCube, Primitive.getBoundingBox,
      BoundingBox.Extend, BoundingBox.SurfaceArea, fdiv] <;> norm_num

/-- C14 at a failing input, the cluster scene sorted on the x axis, range `[0, 4)`.  For
every `std::sort` the sweep scores the candidates 1, 2, 3 with 36078, 16108 and 48150
over the parent surface area 16048; the formula of the claim gives 36060, 16048 and 168
over 16048.  At the candidate 3, which separates the two clusters, the left box of the
code already holds the primitive at index 3 and is the parent box. -/
theorem Build_SurfaceArea_scores_off_by_one (S : StdSort) (best : SahBest) :
    sahAxis S 0 4 (make_bbox clusterScene 0 4) 0 clusterScene best
      = some (clusterScene,
          [(1, FScore.finite (36078 / 16048)), (2, FScore.finite (16108 / 16048)),
           (3, FScore.finite (48150 / 16048))].foldl (sahRecord 0) best) ∧
    sahCostSpec (make_bbox clusterScene 0 4) clusterScene 0 1 4
      = FScore.finite (36060 / 16048) ∧
    sahCostSpec (make_bbox clusterScene 0 4) clusterScene 0 2 4
      = FScore.finite (16048 / 16048) ∧
    sahCostSpec (make_bbox clusterScene 0 4) clusterScene 0 3 4
      = FScore.finite (168 / 16048) ∧
    (36078 / 16048 : ℚ) ≠ 36060 / 16048 ∧ (16108 / 16048 : ℚ) ≠ 16048 / 16048 ∧
    (48150 / 16048 : ℚ) ≠ 168 / 16048 := by
  refine ⟨?_, ?_, ?_, ?_, by norm_num, by norm_num, by norm_num⟩
  · have h := sahAxis_scores S [] clusterScene [] (make_bbox clusterScene 0 4) 0 best
      (by simp [clusterScene])
    rw [run_of_strictly_sorted S 0 clusterScene (clusterScene_sorted 0)] at h
    have hlen : clusterScene.length = 4 := rfl
    simp only [List.nil_append, List.append_nil, List.length_nil, Nat.zero_add, hlen] at h
    rw [h]
    obtain ⟨c1, c2, c3⟩ := clusterScene_costCode
    simp [List.range', c1, c2, c3]
  · rw [clusterScene_bbox]
    simp [sahCostSpec, boxOf, clusterScene, unitCube, Primitive.getBoundingBox,
      BoundingBox.Extend, BoundingBox.SurfaceArea, fdiv]
    norm_num
  · rw [clusterScene_bbox]
    simp [sahCostSpec, boxOf, clusterScene, unitCube, Primitive.getBoundingBox,
      BoundingBox.Extend, BoundingBox.SurfaceArea, fdiv]
    norm_num
  · rw [clusterScene_bbox]
    simp [sahCostSpec, boxOf, clusterScene, unitCube, Primitive.getBoundingBox,
      BoundingBox.Extend, BoundingBox.SurfaceArea, fdiv]
    norm_num

/-- A range that some strictly increasing list is a permutation of is sorted into that
list by every `std::sort`. -/
theorem run_eq_of_strictly_sorted (S : StdSort) (axis : Int) (l l1 : List Primitive)
    (hp : l1.Perm l) (h : l1.Pairwise (fun a b => axisLess axis a b = true)) :
    S.run (axisLess axis) l = l1 := by
  have hsw := axisLess_strictWeak axis
  have hperm := (S.perm (axisLess axis) l hsw).trans hp.symm
  refine @List.Perm.eq_of_sorted Primitive (fun a b => axisLess axis b a = false) _ _ ?_
    (S.sorted (axisLess axis) l hsw) (h.imp (fun hab => hsw.asymm _ _ hab)) hperm
  intro a b ha hb hab hba
  by_contra hne
  rcases pairwise_rel_or l1 h a (hperm.subset ha) b hb hne with hr | hr
  · rw [hr] at hba; cases hba
  · rw [hr] at hab; cases hab

/-- The merge sort `refSort` leaves a range alone that is already in non-decreasing
order. -/
theorem refSort_run_of_sorted (lt : Primitive → Primitive → Bool) (l : List Primitive)
    (h : l.Pairwise (fun a b => lt b a = false)) : refSort.run lt l = l := by
  have h1 : l.Pairwise (fun a b => (!lt b a) = true) :=
    h.imp (fun hab => by simp [hab])
  exact List.mergeSort_of_sorted h1

theorem tieScene_sort_x (l : List Primitive)
    (hl : l = tieScene ∨ l = [unitCube 1 0 0 0, unitCube 0 0 50 1, unitCube 2 100 1 2]) :
    sort_by_axis refSort l 0 3 0 = some l := by
  have hs : l.Pairwise (fun a b => axisLess 0 b a = false) := by
    rcases hl with rfl | rfl <;>
      simp [tieScene, unitCube, axisLess, Primitive.getBoundingBox,
        BoundingBox.getCenter, BoundingBox.getMin, BoundingBox.getMax, Vec3f.get] <;>
      norm_num
  have hne : l ≠ [] := by rcases hl with rfl | rfl <;> simp [tieScene]
  have hlen : l.length = 3 := by rcases hl with rfl | rfl <;> rfl
  have h := sort_by_axis_mid refSort [] l [] 0 hne
  rw [refSort_run_of_sorted _ l hs] at h
  simpa [hlen] using h

theorem tieScene_sort_y :
    sort_by_axis refSort tieScene 0 3 1
      = some [unitCube 1 0 0 0, unitCube 2 100 1 2, unitCube 0 0 50 1] := by
  have h := sort_by_axis_mid refSort [] tieScene [] 1 (by simp [tieScene])
  rw [run_eq_of_strictly_sorted refSort 1 tieScene
    [unitCube 1 0 0 0, unitCube 2 100 1 2, unitCube 0 0 50 1]
    (by
      unfold tieScene
      exact (List.Perm.cons _ (List.Perm.swap _ _ _)).trans (List.Perm.swap _ _ _))
    (by
      simp [unitCube, axisLess, Primitive.getBoundingBox,
        BoundingBox.getCenter, BoundingBox.getMin, BoundingBox.getMax, Vec3f.get]
      norm_num)] at h
  simpa [tieScene] using h

theorem tieScene_sort_z :
    sort_by_axis refSort [unitCube 1 0 0 0, unitCube 2 100 1 2, unitCube 0 0 50 1] 0 3 2
      = some [unitCube 1 0 0 0, unitCube 0 0 50 1, unitCube 2 100 1 2] := by
  have h := sort_by_axis_mid refSort []
    [unitCube 1 0 0 0, unitCube 2 100 1 2, unitCube 0 0 50 1] [] 2 (by simp)
  rw [run_eq_of_strictly_sorted refSort 2
    [unitCube 1 0 0 0, unitCube 2 100 1 2, unitCube 0 0 50 1]
    [unitCube 1 0 0 0, unitCube 0 0 50 1, unitCube 2 100 1 2]
    (List.Perm.cons _ (List.Perm.swap _ _ _))
    (by
      simp [unitCube, axisLess, Primitive.getBoundingBox,
        BoundingBox.getCenter, BoundingBox.getMin, BoundingBox.getMax, Vec3f.get]
      norm_num)] at h
  simpa using h

theorem tieScene_bbox :
    make_bbox tieScene 0 3 = BoundingBox.box ⟨0, 0, 0⟩ ⟨101, 51, 3⟩ := by
  simp [make_bbox, slice, tieScene, unitCube, Primitive.getBoundingBox,
    BoundingBox.Extend]
  norm_num

theorem tieScene_axis_x :
    sahAxis refSort 0 3 (BoundingBox.box ⟨0, 0, 0⟩ ⟨101, 51, 3⟩) 0 tieScene
        { best_score := FScore.posInf, best_axis := -1, best_split := -1 }
      = some (tieScene,
          { best_score := FScore.finite (2354 / 11214), best_axis := 0, best_split := 1 }) := by
  simp only [sahAxis, tieScene_sort_x tieScene (Or.inl rfl)]
  simp [slice, tieScene, sahSweep, right_bboxes_of, unitCube, Primitive.getBoundingBox,
    BoundingBox.Extend, BoundingBox.SurfaceArea, fdiv, FScore.lt]
  norm_num

theorem tieScene_axis_y :
    sahAxis refSort 0 3 (BoundingBox.box ⟨0, 0, 0⟩ ⟨101, 51, 3⟩) 1 tieScene
        { best_score := FScore.finite (2354 / 11214), best_axis := 0, best_split := 1 }
      = some ([unitCube 1 0 0 0, unitCube 2 100 1 2, unitCube 0 0 50 1],
          { best_score := FScore.finite (2354 / 11214), best_axis := 0, best_split := 1 }) := by
  simp only [sahAxis, tieScene_sort_y]
  simp [slice, sahSweep, right_bboxes_of, unitCube, Primitive.getBoundingBox,
    BoundingBox.Extend, BoundingBox.SurfaceArea, fdiv, FScore.lt]
  norm_num

theorem tieScene_axis_z :
    sahAxis refSort 0 3 (BoundingBox.box ⟨0, 0, 0⟩ ⟨101, 51, 3⟩) 2
        [unitCube 1 0 0 0, unitCube 2 100 1 2, unitCube 0 0 50 1]
        { best_score := FScore.finite (2354 / 11214), best_axis := 0, best_split := 1 }
      = some ([unitCube 1 0 0 0, unitCube 0 0 50 1, unitCube 2 100 1 2],
          { best_score := FScore.finite (2354 / 11214), best_axis := 0, best_split := 1 }) := by
  simp only [sahAxis, tieScene_sort_z]
  simp [slice, sahSweep, right_bboxes_of, unitCube, Primitive.getBoundingBox,
    BoundingBox.Extend, BoundingBox.SurfaceArea, fdiv, FScore.lt]
  norm_num

/-- C15 at a failing input: three unit cubes with least corners `(0, 50, 1)`, `(0, 0, 0)`
and `(100, 1, 2)`, in this order, sorted with the stable sort `refSort`.  The minimum
score is recorded on the x axis at index 1 while `[0, 1)` holds the first cube; the
passes over the y and z axes do not beat it but leave the second cube in front of the
first; the final sort on the x axis, on which the two are tied, keeps them so, and the
call returns index 1 with `[0, 1)` holding the second cube. -/
theorem Build_SurfaceArea_resort_moves_primitives :
    sahAxis refSort 0 3 (make_bbox tieScene 0 3) 0 tieScene
        { best_score := FScore.posInf, best_axis := -1, best_split := -1 }
      = some (tieScene,
          { best_score := FScore.finite (2354 / 11214), best_axis := 0, best_split := 1 }) ∧
    sahAxes refSort 0 3 (make_bbox tieScene 0 3) [1, 2] tieScene
        { best_score := FScore.finite (2354 / 11214), best_axis := 0, best_split := 1 }
      = some ([unitCube 1 0 0 0, unitCube 0 0 50 1, unitCube 2 100 1 2],
          { best_score := FScore.finite (2354 / 11214), best_axis := 0, best_split := 1 }) ∧
    Build_SurfaceArea refSort tieScene 0 3 (make_bbox tieScene 0 3) 0
      = some (1, [unitCube 1 0 0 0, unitCube 0 0 50 1, unitCube 2 100 1 2]) ∧
    slice tieScene 0 1 = [unitCube 0 0 50 1] ∧
    slice [unitCube 1 0 0 0, unitCube 0 0 50 1, unitCube 2 100 1 2] 0 1
      = [unitCube 1 0 0 0] ∧
    unitCube 0 0 50 1 ≠ unitCube 1 0 0 0 := by
  rw [tieScene_bbox]
  refine ⟨tieScene_axis_x, ?_, ?_, by simp [slice, tieScene], by simp [slice], ?_⟩
  · simp only [sahAxes, tieScene_axis_y, tieScene_axis_z]
  · have hu : ¬ usub 3 0 ≤ 2 := by simp [usub]
    simp only [Build_SurfaceArea, if_neg hu, sahAxes, tieScene_axis_x, tieScene_axis_y,
      tieScene_axis_z]
    rw [tieScene_sort_x _ (Or.inr rfl)]
    simp
  · intro h
    have := congrArg Primitive.addr h
    simp [unitCube] at this

end BVHSpec
